import Mathlib

/-!
# Shallow embedding of the `annotation-comments` library core

This file embeds, in Lean, the parts of the TypeScript package
`annotation-comments` needed to settle the claims of `CLAIMS.json`:

* the range algebra (`src/internal/ranges.ts`),
* the annotation-tag scanner (`src/parsers/annotation-tags.ts`),
* the parent-comment locator (single-line strategy from
  `src/parsers/text-content.ts`, multi-line strategy from
  `src/parsers/comment-types/multi-line.ts`, dispatcher from
  `src/parsers/parent-comment.ts`),
* the orchestrating parser `parseAnnotationComments` (the revision embedded
  in `src/core/types.ts`),
* the target resolver `findAnnotationTargets` (the revision in
  `src/core/find-targets.ts`, and the later revision in `src/unnamed/part_008`
  together with the shared helpers of `src/internal/text-content.ts` and
  `src/internal/regexps.ts` in `src/unnamed/part_007`),
* the code cleaner (`src/core/clean.ts`).

Modelling conventions:

* A JS string is a `List Char` (`Str`); all inputs considered are ASCII, so one
  `Char` corresponds to one UTF-16 code unit.
* JS numbers used as line/column indices are `Int` (so that JS subtraction,
  `-1` sentinels and negative `slice` arguments are modelled faithfully).
* A JS value that may be `undefined` is an `Option`; JS truthiness of numbers
  (`undefined` and `0` are falsy) is `optTruthy`.
* A thrown JS exception is an `Except String` error.
* In-place mutation is modelled by returning the updated value; JS `forEach`
  loops with index-descending `splice` plus insertion are modelled by the
  equivalent `flatMap`/fold; `Array.prototype.sort` (stable per the ES spec)
  is modelled by a stable insertion sort over the JS comparator.
* The JS `RegExp` engine is external platform code; a compiled regular
  expression is modelled as an oracle `JsRegex` returning, for an input
  string, the list of matches (each with `d`-flag group indices, as
  `createGlobalRegExp` requests), and compilation is an oracle
  `String -> Except String JsRegex` (`new RegExp` may throw).
-/

namespace AC

/-- A line of code as a list of characters. -/
abbrev Str := List Char

/-- JS `\s` whitespace, restricted to the ASCII range (inputs are ASCII). -/
def isWs (c : Char) : Bool :=
  c == ' ' || c == '\t' || c == '\n' || c == '\r' || c == '\x0b' || c == '\x0c'

/-- JS truthiness of a number that may be `undefined`: `undefined` and `0` are falsy. -/
def optTruthy : Option Int → Bool
  | none => false
  | some v => v != 0

/-- JS `String.prototype.trim`. -/
def jsTrim (s : Str) : Str := ((s.dropWhile isWs).reverse.dropWhile isWs).reverse

/-- JS `String.prototype.trimEnd`. -/
def jsTrimEnd (s : Str) : Str := (s.reverse.dropWhile isWs).reverse

/-- JS `String.prototype.slice` with two signed indices (negative counts from the end). -/
def jsSlice (s : Str) (a b : Int) : Str :=
  let n : Int := s.length
  let lo := if a < 0 then max (n + a) 0 else min a n
  let hi := if b < 0 then max (n + b) 0 else min b n
  (s.take hi.toNat).drop lo.toNat

/-- JS `slice` where either index may be `undefined` (start defaults to `0`,
end to the string length). -/
def jsSliceO (s : Str) (a b : Option Int) : Str :=
  jsSlice s (a.getD 0) (b.getD s.length)

/-- JS `string.search(/\S/)`: index of the first non-whitespace character, `-1` if none. -/
def searchNonWs (s : Str) : Int :=
  match s.findIdx? (fun c => !isWs c) with
  | some i => (i : Int)
  | none => -1

/-- Length of the maximal whitespace run at the head of `s`. -/
def wsRun (s : Str) : Nat := (s.takeWhile isWs).length

/-- JS `array[i]` on the line array, with out-of-range access giving `''`
(the sources guard their indices; `codeLines[end.line] ?? ''` appears verbatim). -/
def jsGetLine (codeLines : List Str) (i : Int) : Str :=
  if 0 ≤ i then codeLines.getD i.toNat [] else []

/-- Scan of the suffixes of a string for a prefix occurrence of `sub`,
carrying the absolute position; structural so that concrete evaluations reduce. -/
def firstOccurrenceAux (sub : Str) : Str → Nat → Option Nat
  | [], pos => if sub = [] then some pos else none
  | c :: rest, pos =>
    if sub.isPrefixOf (c :: rest) then some pos
    else firstOccurrenceAux sub rest (pos + 1)

/-- First index `≥ start` at which `sub` occurs in `s`, or none.
Models the search underlying JS `indexOf`. -/
def firstOccurrenceFrom (s sub : Str) (start : Nat) : Option Nat :=
  if start ≤ s.length then firstOccurrenceAux sub (s.drop start) start
  else if sub = [] then some s.length else none

/-- JS `String.prototype.indexOf(sub, from)` (with `from ≥ 0`), returning `-1`
when there is no occurrence. -/
def jsIndexOfFrom (s sub : Str) (start : Nat) : Int :=
  match firstOccurrenceFrom s sub start with
  | some i => (i : Int)
  | none => -1

/-- The JS source-location record: `{ line, column? }` (column omitted means the
line boundary). -/
structure SourceLocation where
  line : Int
  column : Option Int := none
deriving DecidableEq, Repr

/-- The JS source-range record `{ start, end }`. The source's `end` field is a
reserved word in Lean and is called `stop` here. -/
structure SourceRange where
  start : SourceLocation
  stop : SourceLocation
deriving DecidableEq, Repr

/-- Which boundary of a range a comparison looks at (`'start' | 'end'`). -/
inductive RProp where
  | start
  | stop
deriving DecidableEq, Repr

def SourceRange.loc (r : SourceRange) : RProp → SourceLocation
  | .start => r.start
  | .stop => r.stop

/-! ## `src/internal/ranges.ts` (the revision with `excludeRangesFromOuterRange`,
whose `compareRanges` returns `a - b`) -/

/-- `createRange` of `ranges.ts`: columns are normalised away at line
boundaries. The JS guard `start.column ?? 0 > 0` parses as
`start.column ?? (0 > 0)`, so the start column is kept exactly when it is
defined and non-zero (truthy); the end column is kept when it is truthy and
less than the line length. -/
def createRange (codeLines : List Str) (start stop : SourceLocation) : SourceRange :=
  { start :=
      { line := start.line
        column := if optTruthy start.column then start.column else none }
    stop :=
      { line := stop.line
        column :=
          if optTruthy stop.column ∧ stop.column.getD 0 < (jsGetLine codeLines stop.line).length
          then stop.column else none } }

/-- `cloneRange`: in this functional embedding a structural copy is the value itself. -/
def cloneRange (r : SourceRange) : SourceRange := r

def createSingleLineRange (lineIndex : Int) : SourceRange :=
  { start := { line := lineIndex }, stop := { line := lineIndex } }

/-- `compareRanges(a, b, propA, propB = propA)`: positive iff the first location
comes after the second. -/
def compareRanges (a b : SourceRange) (propA : RProp) (propB : RProp := propA) : Int :=
  let la := a.loc propA
  let lb := b.loc propB
  let lineResult := la.line - lb.line
  if lineResult ≠ 0 then lineResult
  else
    match la.column, lb.column with
    | none, none => 0
    | none, _ => if propA = .start then -1 else 1
    | _, none => if propB = .start then 1 else -1
    | some x, some y => x - y

def rangesAreEqual (a b : SourceRange) : Bool :=
  compareRanges a b .start == 0 && compareRanges a b .stop == 0

def secondRangeIsInFirst (potentialOuterRange rangeToTest : SourceRange) : Bool :=
  compareRanges rangeToTest potentialOuterRange .start ≥ 0 &&
  compareRanges rangeToTest potentialOuterRange .stop ≤ 0

/-- The integer interval `[a, b)` as a list (the JS `for` loops over line indices). -/
def intRangeList (a b : Int) : List Int :=
  (List.range (b - a).toNat).map (fun k => a + (k : Int))

/-- `splitRangeByLines`. -/
def splitRangeByLines (range : SourceRange) : List SourceRange :=
  if range.start.line = range.stop.line then [cloneRange range]
  else
    let isPartialStartLine := range.start.column.getD 0 > 0
    let isPartialEndLine := range.stop.column.isSome
    (if isPartialStartLine then
      [{ start := { line := range.start.line, column := range.start.column }
         stop := { line := range.start.line } }]
     else []) ++
    ((intRangeList (range.start.line + (if isPartialStartLine then 1 else 0))
        (range.stop.line + (if isPartialEndLine then 0 else 1))).map createSingleLineRange) ++
    (if isPartialEndLine then
      [{ start := { line := range.stop.line }
         stop := { line := range.stop.line, column := range.stop.column } }]
     else [])

/-- Stable insertion of one element behind all elements not after it; used to
model `Array.prototype.sort`, which the ES spec requires to be stable. -/
def jsSortInsert (cmp : α → α → Int) (x : α) : List α → List α
  | [] => [x]
  | y :: ys => if cmp x y < 0 then x :: y :: ys else y :: jsSortInsert cmp x ys

/-- `Array.prototype.sort(cmp)` as a stable sort. -/
def jsSortBy (cmp : α → α → Int) (l : List α) : List α :=
  l.foldl (fun acc x => jsSortInsert cmp x acc) []

/-- `mergeIntersectingOrAdjacentRanges`. -/
def mergeIntersectingOrAdjacentRanges (ranges : List SourceRange) : List SourceRange :=
  let sortedRanges := jsSortBy (fun a b => compareRanges a b .start) ranges
  let step : (List SourceRange × Option SourceRange) → SourceRange →
      (List SourceRange × Option SourceRange) := fun (mergedRanges, currentRange) newRange =>
    match currentRange with
    | none => (mergedRanges, some (cloneRange newRange))
    | some current =>
      if compareRanges newRange current .start .stop ≤ 0 then
        if compareRanges newRange current .stop > 0 then
          (mergedRanges, some { current with stop := newRange.stop })
        else (mergedRanges, some current)
      else (mergedRanges ++ [current], some (cloneRange newRange))
  match sortedRanges.foldl step ([], none) with
  | (mergedRanges, some current) => mergedRanges ++ [current]
  | (mergedRanges, none) => mergedRanges

/-- One step of the exclusion loop of `excludeRangesFromOuterRange`: the JS
index-descending `splice` loop removes, shrinks or splits each (single-line)
range exactly once and never revisits the piece inserted behind the cursor, so
it is the following `flatMap`. -/
def applyExclusion (codeLines : List Str) (ranges : List SourceRange)
    (exclusion : SourceRange) : List SourceRange :=
  let lineIndex := exclusion.start.line
  let lineLength : Int := (jsGetLine codeLines lineIndex).length
  let exclusionStartColumn := exclusion.start.column.getD 0
  let exclusionEndColumn := exclusion.stop.column.getD lineLength
  ranges.flatMap fun range =>
    if range.start.line ≠ lineIndex then [range]
    else
      let rangeStartColumn := range.start.column.getD 0
      let rangeEndColumn := range.stop.column.getD lineLength
      if exclusionStartColumn ≤ rangeStartColumn ∧ exclusionEndColumn ≥ rangeEndColumn then
        []
      else if exclusionStartColumn ≤ rangeStartColumn ∧ exclusionEndColumn < rangeEndColumn then
        [{ range with start := { line := range.start.line, column := some exclusionEndColumn } }]
      else if exclusionStartColumn > rangeStartColumn ∧ exclusionEndColumn ≥ rangeEndColumn then
        [{ range with stop := { line := range.stop.line, column := some exclusionStartColumn } }]
      else if exclusionStartColumn > rangeStartColumn ∧ exclusionEndColumn < rangeEndColumn then
        [{ range with stop := { line := range.stop.line, column := some exclusionStartColumn } },
         { start := { line := lineIndex
                      column := if exclusionEndColumn > 0 then some exclusionEndColumn else none }
           stop := { line := lineIndex
                     column := if rangeEndColumn < lineLength then some rangeEndColumn else none } }]
      else [range]

/-- `excludeRangesFromOuterRange`. -/
def excludeRangesFromOuterRange (codeLines : List Str) (outerRange : SourceRange)
    (rangesToExclude : List SourceRange) : List SourceRange :=
  let remainingRanges := splitRangeByLines outerRange
  let exclusionsSplitByLine := rangesToExclude.flatMap splitRangeByLines
  exclusionsSplitByLine.foldl (applyExclusion codeLines) remainingRanges

/-- `excludeWhitespaceRanges` of `src/internal/text-content.ts`. -/
def excludeWhitespaceRanges (codeLines : List Str) (ranges : List SourceRange) :
    List SourceRange :=
  ranges.filter fun range =>
    searchNonWs (jsSliceO (jsGetLine codeLines range.start.line)
      range.start.column range.stop.column) > -1

/-! ## The JS `RegExp` engine model and `src/unnamed/part_007` (`regexps.ts`) -/

/-- One match produced by a global JS regular expression compiled with the `d`
flag: its index, the matched text, and the group spans (`match.indices`), whose
head is the full-match span and whose tail are the capture groups (possibly
`null`). -/
structure JsMatch where
  index : Nat
  matched : Str
  indices : List (Option (Nat × Nat))

/-- A compiled global regular expression, modelled as the platform oracle
returning all matches that `matchAll` iterates for a given input. -/
def JsRegex := Str → List JsMatch

/-- The platform `new RegExp(pattern, 'gd')` constructor: an oracle that either
produces a compiled regular expression or throws a syntax error message. -/
def RegexCompiler := Str → Except Str JsRegex

/-- `createGlobalRegExp` of `src/unnamed/part_007`: compile with global
matching, wrapping a compilation error into the library's own error message
(the source's `coerceError(error).message` is the oracle's message). -/
def createGlobalRegExp (compile : RegexCompiler) (pattern : Str) : Except Str JsRegex :=
  match compile pattern with
  | .ok regExp => .ok regExp
  | .error msg =>
    .error (("Failed to parse `").data ++ pattern ++ ("` as regular expression: ").data ++ msg)

/-- `getGroupIndicesFromRegExpMatch`: the `d`-flag group indices; the non-`d`
platform fallback (marked unreachable, `v8 ignore`, in the source) is modelled
by the full-match span. -/
def getGroupIndicesFromRegExpMatch (m : JsMatch) : List (Option (Nat × Nat)) :=
  if m.indices.length ≠ 0 then m.indices
  else [some (m.index, m.index + m.matched.length)]

/-- `findRegExpMatchColumnRanges` of `src/unnamed/part_007`: the column ranges
of all matches, using capture-group spans instead of the full-match span when
the pattern has (non-null) capture groups. -/
def findRegExpMatchColumnRanges (content : Str) (regExp : JsRegex) : List (Nat × Nat) :=
  (regExp content).flatMap fun m =>
    let rawGroupIndices := getGroupIndicesFromRegExpMatch m
    let groupIndices := rawGroupIndices.filterMap id
    let groupIndices :=
      if groupIndices.length = 0 then [(m.index, m.index + m.matched.length)] else groupIndices
    let groupIndices := if groupIndices.length > 1 then groupIndices.tail else groupIndices
    groupIndices

/-! ## `src/internal/escaping.ts` -/

/-- The global replace of `getEscapeSequenceRegExp(...delims)` by `'$1'`:
a backslash followed by a backslash or one of the delimiters is collapsed to
the escaped character; other backslashes are kept. -/
def unescapeWith (delims : List Char) : Str → Str
  | [] => []
  | '\\' :: c :: rest =>
    if c = '\\' ∨ c ∈ delims then c :: unescapeWith delims rest
    else '\\' :: unescapeWith delims (c :: rest)
  | c :: rest => c :: unescapeWith delims rest

/-! ## `src/parsers/annotation-tags.ts`

The tag grammar is the regular expression `annotationTagRegex`; its matching
(including the lazy quantifiers of the quoted/regex/bare query alternatives and
the backtracking between the optional query and range groups) is implemented
below as an explicit backtracking matcher. -/

/-- The candidate remainders after the closing delimiter of a lazily matched
`d (?:[^\\]|\\.)*? d` body, in the order the regex engine tries them
(shortest content first). The input is the text after the opening delimiter. -/
def delimScan (d : Char) : Str → List Str
  | [] => []
  | c :: t =>
    (if c = d then [t] else []) ++
    (if c = '\\' then
      match t with
      | [] => []
      | _ :: t2 => delimScan d t2
     else delimScan d t)

/-- The candidate remainders of the lazy bare-query body
`(?:[^\\:\]]|\\.)+?` (at least one step), in engine order. -/
def bareScan : Str → List Str
  | [] => []
  | c :: t =>
    if c = ':' ∨ c = ']' then []
    else if c = '\\' then
      match t with
      | [] => []
      | _ :: t2 => t2 :: bareScan t2
    else t :: bareScan t

/-- The negative lookahead `(?!-?\d)` of the bare query alternative. -/
def bareAllowed : Str → Bool
  | '-' :: d :: _ => !d.isDigit
  | d :: _ => !d.isDigit
  | [] => true

/-- The raw text consumed between a full suffix `t` and a candidate remainder. -/
def consumedBefore (t rest : Str) : Str := t.take (t.length - rest.length)

/-- All candidates of the query capture group (raw captured text and
remainder), in engine order: double-quoted, single-quoted, regex-delimited,
then bare. -/
def queryAlternatives (t : Str) : List (Str × Str) :=
  (match t with
   | '"' :: rest => (delimScan '"' rest).map fun r => (consumedBefore t r, r)
   | _ => []) ++
  (match t with
   | '\'' :: rest => (delimScan '\'' rest).map fun r => (consumedBefore t r, r)
   | _ => []) ++
  (match t with
   | '/' :: rest => (delimScan '/' rest).map fun r => (consumedBefore t r, r)
   | _ => []) ++
  (if bareAllowed t then (bareScan t).map fun r => (consumedBefore t r, r) else [])

/-- The greedy `(-?\d+)` of the relative target range: sign, maximal digit run. -/
def parseSignedDigits (t : Str) : Option (Str × Str) :=
  let (sign, t1) := match t with
    | '-' :: rest => (['-'], rest)
    | _ => (([] : Str), t)
  let digits := t1.takeWhile Char.isDigit
  if digits = [] then none else some (sign ++ digits, t1.drop digits.length)

/-- The first `some` produced by `f` over a candidate list (depth-first
backtracking order). -/
def firstSomeMap (f : α → Option β) : List α → Option β
  | [] => none
  | a :: l =>
    match f a with
    | some b => some b
    | none => firstSomeMap f l

/-- A raw tag match: the captured name, raw query, raw range, and matched text. -/
structure TagRaw where
  name : Str
  rawQuery : Option Str
  rawRange : Option Str
  rawTag : Str
deriving DecidableEq, Repr

/-- Matching of the tag body after the optional `code ` prefix: greedy name
run, then the optional query and range groups with full backtracking, then the
closing `]`. Returns captures and the remainder after `]`. -/
def parseTagAfterPrefix (t : Str) : Option (Str × Option Str × Option Str × Str) :=
  let name := t.takeWhile fun c => !(c = ':' ∨ c = ']' ∨ isWs c)
  if name = [] then none
  else
    let t1 := t.drop name.length
    let queryCands : List (Option Str × Str) :=
      (match t1 with
       | ':' :: t2 => (queryAlternatives t2).map fun (q, r) => (some q, r)
       | _ => []) ++ [(none, t1)]
    firstSomeMap (fun (q, t2) =>
      let rangeCands : List (Option Str × Str) :=
        (match t2 with
         | ':' :: t3 =>
           match parseSignedDigits t3 with
           | some (raw, t4) => [(some raw, t4)]
           | none => []
         | _ => []) ++ [(none, t2)]
      firstSomeMap (fun (r, t3) =>
        match t3 with
        | ']' :: t4 => some (name, q, r, t4)
        | _ => none) rangeCands) queryCands

/-- Matching of `annotationTagRegex` anchored at the head of `s`: the opening
`[!`, the optional `code ` prefix (tried first, as the engine does), the body,
and the closing bracket. -/
def tagMatchAt (s : Str) : Option TagRaw :=
  match s with
  | '[' :: '!' :: t =>
    let withPrefix :=
      if (("code ").data).isPrefixOf t then parseTagAfterPrefix (t.drop 5) else none
    let result :=
      match withPrefix with
      | some r => some r
      | none => parseTagAfterPrefix t
    match result with
    | some (name, q, r, rest) =>
      some { name := name, rawQuery := q, rawRange := r
             rawTag := consumedBefore s rest }
    | none => none
  | _ => none

/-- `line.matchAll(annotationTagRegex)`: leftmost matches, resuming after each
match; `skip` counts positions still covered by the previous match. -/
def tagScanAux : Str → Nat → Nat → List (Nat × TagRaw)
  | [], _, _ => []
  | c :: rest, pos, skip =>
    if skip > 0 then tagScanAux rest (pos + 1) (skip - 1)
    else
      match tagMatchAt (c :: rest) with
      | some m => (pos, m) :: tagScanAux rest (pos + 1) (m.rawTag.length - 1)
      | none => tagScanAux rest (pos + 1) 0

def tagScan (line : Str) : List (Nat × TagRaw) := tagScanAux line 0 0

/-- `Number(rawRange)` for a string matching `-?\d+`. -/
def strToInt (s : Str) : Int :=
  match s with
  | '-' :: digits => -(digits.foldl (fun acc c => acc * 10 + (c.toNat - 48)) 0 : Nat)
  | digits => (digits.foldl (fun acc c => acc * 10 + (c.toNat - 48)) 0 : Nat)

/-- The annotation tag record of the scanner revision in
`src/parsers/annotation-tags.ts` (ranges with explicit columns). -/
structure AnnotTag where
  name : Str
  targetSearchQuery : Option (Str ⊕ JsRegex) := none
  relativeTargetRange : Option Int := none
  rawTag : Str
  range : SourceRange

/-- `parseTargetSearchQuery`: unescape the raw query; a `/`-delimited query is
compiled as a global regular expression and may throw. -/
def parseTargetSearchQuery (compile : RegexCompiler) :
    Option Str → Except Str (Option (Str ⊕ JsRegex))
  | none => .ok none
  | some [] => .ok none
  | some raw =>
    let delimiter := raw.headD ' '
    let delimitedDelims : Option (List Char) :=
      if delimiter = '"' then some ['"']
      else if delimiter = '\'' then some ['\'']
      else if delimiter = '/' then some ['/']
      else none
    let undelimitedQuery :=
      match delimitedDelims with
      | none => raw
      | some _ => jsSlice raw 1 (-1)
    let unescapedQuery := unescapeWith (delimitedDelims.getD [':', ']']) undelimitedQuery
    if delimiter = '/' then
      (createGlobalRegExp compile unescapedQuery).map fun r => some (.inr r)
    else .ok (some (.inl unescapedQuery))

/-- `parseAnnotationTags` of `src/parsers/annotation-tags.ts`: scan every line,
build the tag records; an invalid regex query propagates as a thrown error
(the function has no `try`/`catch`). -/
def parseAnnotationTags (compile : RegexCompiler) (codeLines : List Str) :
    Except Str (List AnnotTag) :=
  codeLines.enum.foldlM
    (fun acc (lineIndex, line) =>
      (tagScan line).foldlM
        (fun acc (startColIndex, m) => do
          let targetSearchQuery ← parseTargetSearchQuery compile m.rawQuery
          let endColIndex := startColIndex + m.rawTag.length
          pure (acc ++ [{
            name := m.name
            targetSearchQuery := targetSearchQuery
            relativeTargetRange := m.rawRange.map strToInt
            rawTag := m.rawTag
            range :=
              { start := { line := (lineIndex : Int), column := some (startColIndex : Int) }
                stop := { line := (lineIndex : Int), column := some (endColIndex : Int) } } }]))
        acc)
    []

/-! ## The `AnnotationComment` record of the parser revisions

`annotationRange` is an `Option`: the single-line strategy fills it, while the
multi-line strategy of `src/parsers/comment-types/multi-line.ts` builds its
result object without this field (it is `undefined` on such comments). -/

structure AnnotComment where
  tag : AnnotTag
  contents : List Str
  commentRange : SourceRange
  annotationRange : Option SourceRange
  contentRanges : List SourceRange
  targetRanges : List SourceRange

/-! ## `getTextContentInLine` (`src/parsers/text-content.ts`) -/

/-- The continuation-line pattern `/^\s*\*(?=\s|$)/` of doc comments: returns
the match length (leading whitespace plus the `*`) when the line starts, after
optional whitespace, with a `*` followed by whitespace or the end of line. -/
def jsdocContLineStart (s : Str) : Option Nat :=
  let w := wsRun s
  match s.drop w with
  | '*' :: rest => if rest.isEmpty || isWs (rest.headD ' ') then some (w + 1) else none
  | _ => none

/-- `getTextContentInLine`: the non-whitespace content of a column range of a
line (with the continuation-line syntax stripped at column 0) and its range. -/
def getTextContentInLine (codeLines : List Str) (lineIndex : Int)
    (startColumn endColumn : Option Int) (continuationLineStart : Option (Str → Option Nat)) :
    Str × SourceRange :=
  let startCol := startColumn.getD 0
  let line := jsGetLine codeLines lineIndex
  let outerContent := jsSlice line startCol (endColumn.getD line.length)
  let innerContentIndex : Nat :=
    if startCol = 0 then
      match continuationLineStart with
      | some f => (f outerContent).getD 0
      | none => 0
    else 0
  let innerContent := outerContent.drop innerContentIndex
  let firstNonWhitespaceIndex := searchNonWs innerContent
  let content :=
    if firstNonWhitespaceIndex > -1 then jsTrimEnd (innerContent.drop firstNonWhitespaceIndex.toNat)
    else []
  let contentStartIndex : Int :=
    startCol + innerContentIndex + (if firstNonWhitespaceIndex > -1 then firstNonWhitespaceIndex else 0)
  let contentRange : SourceRange :=
    { start :=
        { line := lineIndex
          column := if contentStartIndex > 0 then some contentStartIndex else none }
      stop :=
        { line := lineIndex
          column :=
            if contentStartIndex + content.length < (line.length : Int) then
              some (contentStartIndex + content.length)
            else none } }
  (content, contentRange)

/-! ## The single-line strategy (`parseSingleLineParentComment` of
`src/parsers/text-content.ts`) -/

/-- One match of `singleLineCommentRegex` = `(^|\s+)(//|#|--)(\s+)` (global). -/
structure SlMatch where
  startColumn : Nat
  endColumn : Nat
  syn : Str
deriving DecidableEq, Repr

/-- The comment-opener alternation `(//|#|--)`. -/
def matchOpener (s : Str) : Option Str :=
  if (("//").data).isPrefixOf s then some ("//").data
  else if (("#").data).isPrefixOf s then some ("#").data
  else if (("--").data).isPrefixOf s then some ("--").data
  else none

/-- The `\s+ opener \s+` branch of the pattern at a given position: the leading
`\s+` is necessarily the maximal whitespace run (openers start with
non-whitespace, so shorter backtracked runs cannot match). -/
def slTryWsBranch (pos : Nat) (s : Str) : Option SlMatch :=
  let w := wsRun s
  if w = 0 then none
  else
    match matchOpener (s.drop w) with
    | none => none
    | some o =>
      let t := wsRun (s.drop (w + o.length))
      if t = 0 then none else some ⟨pos, pos + w + o.length + t, o⟩

/-- Matching of `(^|\s+)(//|#|--)(\s+)` at one position of the line (`^` is
tried first by the engine and only applies at position 0). -/
def slMatchAtPos (pos : Nat) (s : Str) : Option SlMatch :=
  if pos = 0 then
    match matchOpener s with
    | some o =>
      let t := wsRun (s.drop o.length)
      if t = 0 then slTryWsBranch pos s else some ⟨0, o.length + t, o⟩
    | none => slTryWsBranch pos s
  else slTryWsBranch pos s

/-- `line.matchAll(singleLineCommentRegex)`: leftmost matches, resuming at each
match end; `skip` counts positions still covered by the previous match. -/
def slScanAux : Str → Nat → Nat → List SlMatch
  | [], _, _ => []
  | c :: rest, pos, skip =>
    if skip > 0 then slScanAux rest (pos + 1) (skip - 1)
    else
      match slMatchAtPos pos (c :: rest) with
      | some m => m :: slScanAux rest (pos + 1) (m.endColumn - pos - 1)
      | none => slScanAux rest (pos + 1) 0

def slScan (line : Str) : List SlMatch := slScanAux line 0 0

/-- The accumulator of the multi-line expansion loop of
`parseSingleLineParentComment`: contents, content ranges, and the current
comment end location. -/
structure SlExpandAcc where
  contents : List Str
  contentRanges : List SourceRange
  stopLoc : SourceLocation

/-- The subsequent-comment-lines expansion loop of
`parseSingleLineParentComment` (its `for` loop with `break`s). -/
def slExpandLoop (codeLines : List Str) (syn : Str) : List Int → SlExpandAcc → SlExpandAcc
  | [], acc => acc
  | lineIndex :: restIdx, acc =>
    let line := jsGetLine codeLines lineIndex
    let commentStart := searchNonWs line
    let possibleContentStart := commentStart + syn.length + 1
    let expectedCommentSyntaxPart := jsSlice line commentStart possibleContentStart
    if jsTrimEnd expectedCommentSyntaxPart ≠ syn then acc
    else
      let (content, contentRange) :=
        getTextContentInLine codeLines lineIndex (some possibleContentStart) none none
      if content ≠ [] then
        if content = ("---").data then
          { acc with stopLoc := { line := lineIndex } }
        else if (("[!").data).isPrefixOf content then acc
        else
          slExpandLoop codeLines syn restIdx
            { contents := acc.contents ++ [content]
              contentRanges := acc.contentRanges ++ [contentRange]
              stopLoc := { line := lineIndex } }
      else
        let column := min possibleContentStart (line.length : Int)
        slExpandLoop codeLines syn restIdx
          { contents := acc.contents ++ [[]]
            contentRanges := acc.contentRanges ++
              [createRange codeLines { line := lineIndex, column := some column }
                { line := lineIndex }]
            stopLoc := { line := lineIndex } }

/-- `parseSingleLineParentComment` (the revision of
`src/parsers/text-content.ts` that fills `annotationRange`). -/
def parseSingleLineParentComment (codeLines : List Str) (tag : AnnotTag) :
    Option AnnotComment :=
  let tagLineIndex := tag.range.start.line
  let tagLine := jsGetLine codeLines tagLineIndex
  let tagEndColumn : Int := tag.range.stop.column.getD tagLine.length
  let singleLineCommentSyntaxMatches := slScan tagLine
  let singleLineCommentSyntax? := singleLineCommentSyntaxMatches.find? fun m =>
    tag.range.start.column == some (m.endColumn : Int)
  match singleLineCommentSyntax? with
  | none => none
  | some singleLineCommentSyntax =>
    let commentRange :=
      createRange codeLines { line := tagLineIndex } { line := tagLineIndex }
    let commentRange :=
      if jsTrim (jsSlice tagLine 0 singleLineCommentSyntax.startColumn) ≠ [] then
        { commentRange with
            start := { commentRange.start with
                         column := some (singleLineCommentSyntax.startColumn : Int) } }
      else commentRange
    let chainedSingleLineCommentSyntax? := singleLineCommentSyntaxMatches.find? fun m =>
      decide ((m.startColumn : Int) ≥ tagEndColumn) &&
      m.syn == singleLineCommentSyntax.syn &&
      (("[!").data).isPrefixOf (jsSlice tagLine m.endColumn tagLine.length)
    let commentRange :=
      match chainedSingleLineCommentSyntax? with
      | some ch =>
        { commentRange with
            stop := { commentRange.stop with column := some (ch.startColumn : Int) } }
      | none => commentRange
    let (tagLineContent, tagLineContentRange) :=
      getTextContentInLine codeLines tagLineIndex (some tagEndColumn)
        commentRange.stop.column none
    let contents := if tagLineContent ≠ [] then [tagLineContent] else []
    let contentRanges := if tagLineContent ≠ [] then [tagLineContentRange] else []
    let allowMultiLineExpansion :=
      jsTrim (jsSlice tagLine 0 singleLineCommentSyntax.startColumn) = [] ∧
      chainedSingleLineCommentSyntax?.isNone ∧
      tag.name ≠ ("ignore-tags").data
    let expanded :=
      if allowMultiLineExpansion then
        slExpandLoop codeLines singleLineCommentSyntax.syn
          (intRangeList (tagLineIndex + 1) codeLines.length)
          { contents := contents, contentRanges := contentRanges
            stopLoc := commentRange.stop }
      else
        { contents := contents, contentRanges := contentRanges
          stopLoc := commentRange.stop }
    let commentRange := { commentRange with stop := expanded.stopLoc }
    let annotationRange := createRange codeLines commentRange.start commentRange.stop
    some { tag := tag
           contents := expanded.contents
           commentRange := commentRange
           annotationRange := some annotationRange
           contentRanges := expanded.contentRanges
           targetRanges := [] }

/-! ## The multi-line strategy (`src/parsers/comment-types/multi-line.ts`) -/

/-- One supported multi-line comment syntax. -/
structure MlSyntax where
  opening : Str
  closing : Str
  continuationLineStart : Option (Str → Option Nat)
deriving Inhabited

/-- `multiLineCommentSyntaxes` (JSDoc first; `\x7b`/`\x7d` are the brace
characters of the JSX-style wrappers). -/
def multiLineCommentSyntaxes : List MlSyntax :=
  [ ⟨("/**").data, ("*/").data, some jsdocContLineStart⟩,
    ⟨("/*").data, ("*/").data, none⟩,
    ⟨("<!--").data, ("-->").data, none⟩,
    ⟨("\x7b/*").data, ("*/\x7d").data, none⟩,
    ⟨("\x7b /*").data, ("*/ \x7d").data, none⟩,
    ⟨("(*").data, ("*)").data, none⟩,
    ⟨("--[[").data, ("]]").data, none⟩ ]

/-- The length of `escapeRegExp(s)`: characters special in a regular expression
are backslash-escaped and count twice (`createCommentDelimiterRegExp` sorts the
escaped alternatives by this length). -/
def escapeRegExpLen (s : Str) : Nat :=
  s.foldl (fun n c => n + (if c ∈ (".*+?^$\x7b\x7d()|[]\\").data then 2 else 1)) 0

/-- The delimiter alternation of `createCommentDelimiterRegExp`: unique
sequences (first occurrence kept, as a JS `Set`), stably sorted by descending
escaped length. -/
def delimAlternation (delimOf : MlSyntax → Str) : List Str :=
  jsSortBy (fun a b => ((escapeRegExpLen b : Int) - (escapeRegExpLen a : Int)))
    ((multiLineCommentSyntaxes.map delimOf).eraseDups)

def openingAlternation : List Str := delimAlternation (·.opening)
def closingAlternation : List Str := delimAlternation (·.closing)

/-- One delimiter match of `findAllCommentDelimiters`, with the whitespace
captured by the lookbehind/lookahead groups. -/
structure DelimMatch where
  index : Nat
  leadingWs : Nat
  delim : Str
  trailingWs : Nat
deriving DecidableEq, Repr

/-- Length of the maximal whitespace run of `line` ending at position `p`
(what the greedy lookbehind `(?<=^|(\s+))` captures). -/
def wsRunEndingAt (line : Str) (p : Nat) : Nat :=
  ((line.take p).reverse.takeWhile isWs).length

/-- The body of the `exec` loop of `findAllCommentDelimiters`: scan every
position (the loop resumes at `match.index + 1`, so matches may overlap),
matching a delimiter preceded by line start or whitespace and followed by line
end or whitespace; the loop `break`s past `endColumn` when that bound is
truthy (the JS guard `if (endColumn && ...)` treats `0` as no bound). -/
def mlDelimsAux (alts : List Str) (endCol : Option Int) : Str → Nat → Nat → List DelimMatch
  | [], _, _ => []
  | c :: rest, pos, wsBehind =>
    let wsBehindNext := if isWs c then wsBehind + 1 else 0
    let found :=
      if pos = 0 ∨ wsBehind > 0 then
        firstSomeMap (fun a =>
          if a.isPrefixOf (c :: rest) &&
              (let after := (c :: rest).drop a.length
               after.isEmpty || isWs (after.headD ' ')) then some a else none) alts
      else none
    match found with
    | some a =>
      if optTruthy endCol ∧ ((pos + a.length : Nat) : Int) > endCol.getD 0 then []
      else
        { index := pos, leadingWs := wsBehind, delim := a
          trailingWs := wsRun ((c :: rest).drop a.length) } ::
        mlDelimsAux alts endCol rest (pos + 1) wsBehindNext
    | none => mlDelimsAux alts endCol rest (pos + 1) wsBehindNext

/-- `findAllCommentDelimiters`: all (possibly overlapping) delimiter matches of
a line from `startColumn ?? 0`, bounded by the `endColumn` break. -/
def findAllCommentDelimiters (alts : List Str) (line : Str) (startCol endCol : Option Int) :
    List DelimMatch :=
  let s0 : Nat := (startCol.getD 0).toNat
  mlDelimsAux alts endCol (line.drop s0) s0 (wsRunEndingAt line s0)

/-- The per-syntax match state (`Partial<MultiLineCommentSyntaxMatch>`). -/
structure MlPartial where
  openingRange : Option SourceRange := none
  openingRangeWithWhitespace : Option SourceRange := none
  closingRange : Option SourceRange := none
  closingRangeWithWhitespace : Option SourceRange := none
  invalid : Bool := false
deriving Inhabited, Repr

/-- Modelled from the spec: the `createRange({ line, lineIndex, startColumn,
endColumn })` helper that `findCommentSyntaxMatches` calls is a revision of
`internal/ranges.ts` absent from the snapshot; per the source note
"(Note: Columns are only set if they don't match the beginning or end of the
line)" it drops the start column at the line start and the end column at the
line end. -/
def mkRangeFromCols (line : Str) (lineIndex : Int) (startColumn endColumn : Nat) : SourceRange :=
  { start :=
      { line := lineIndex
        column := if startColumn > 0 then some (startColumn : Int) else none }
    stop :=
      { line := lineIndex
        column := if endColumn < line.length then some (endColumn : Int) else none } }

inductive DelimType where
  | opening
  | closing
deriving DecidableEq

/-- `findCommentSyntaxMatches`: record new opening/closing delimiter matches in
the per-syntax state (openings processed closest-to-tag first), then validate
the continuation-line requirement and, on the tag line of an opening scan, the
only-whitespace-before-the-tag requirement. Returns the new state and whether
any new delimiter was recorded. -/
def findCommentSyntaxMatches (dt : DelimType) (state : List MlPartial)
    (codeLines : List Str) (lineIndex : Int) (startCol endCol : Option Int) :
    List MlPartial × Bool :=
  let line := jsGetLine codeLines lineIndex
  let alts := match dt with
    | .opening => openingAlternation
    | .closing => closingAlternation
  let sequences₀ := findAllCommentDelimiters alts line startCol endCol
  let sequences := match dt with
    | .opening => sequences₀.reverse
    | .closing => sequences₀
  let (state, foundNewMatches) :=
    sequences.foldl (fun (st, fn) sequence =>
      let updated := st.enum.map fun (index, m) =>
        let syn := multiLineCommentSyntaxes.getD index default
        let delimOfSyn := match dt with
          | .opening => syn.opening
          | .closing => syn.closing
        let existing := match dt with
          | .opening => m.openingRange
          | .closing => m.closingRange
        if m.invalid || existing.isSome then (m, false)
        else if delimOfSyn ≠ sequence.delim then (m, false)
        else
          let delimRange :=
            mkRangeFromCols line lineIndex sequence.index
              (sequence.index + sequence.delim.length)
          let wsRange :=
            mkRangeFromCols line lineIndex (sequence.index - sequence.leadingWs)
              (sequence.index + sequence.delim.length + sequence.trailingWs)
          match dt with
          | .opening =>
            ({ m with openingRange := some delimRange
                      openingRangeWithWhitespace := some wsRange }, true)
          | .closing =>
            ({ m with closingRange := some delimRange
                      closingRangeWithWhitespace := some wsRange }, true)
      (updated.map Prod.fst, fn || updated.any Prod.snd))
      (state, false)
  let state := state.enum.map fun (index, m) =>
    let syn := multiLineCommentSyntaxes.getD index default
    let m :=
      if !m.invalid && syn.continuationLineStart.isSome &&
          (match m.openingRange with
           | some r => lineIndex ≠ r.start.line
           | none => true) &&
          (match m.closingRange with
           | some r => lineIndex ≠ r.start.line
           | none => true) &&
          (match syn.continuationLineStart with
           | some f => (f line).isNone
           | none => true) then
        { m with invalid := true }
      else m
    if !m.invalid && dt = DelimType.opening && endCol.isSome then
      let openingEndColumn : Option Int :=
        match m.openingRangeWithWhitespace with
        | some r => if r.stop.line = lineIndex then r.stop.column else none
        | none => none
      let contentBeforeTag := jsSliceO line openingEndColumn endCol
      let contentBeforeTag :=
        if !optTruthy openingEndColumn && syn.continuationLineStart.isSome then
          match syn.continuationLineStart with
          | some f => contentBeforeTag.drop ((f contentBeforeTag).getD 0)
          | none => contentBeforeTag
        else contentBeforeTag
      if jsTrim contentBeforeTag ≠ [] then { m with invalid := true } else m
    else m
  (state, foundNewMatches)

/-- `isValidFullMatch`: a recorded opening/closing pair that satisfies the
same-line and multi-line code-adjacency rules. -/
def isValidFullMatch (m : MlPartial) : Bool :=
  if m.invalid then false
  else
    match m.openingRange, m.closingRange with
    | some o, some c =>
      let startsAndEndsOnSameLine := o.start.line == c.stop.line
      let hasCodeBeforeStart := (m.openingRangeWithWhitespace.bind (·.start.column)).isSome
      let hasCodeAfterEnd := (m.closingRangeWithWhitespace.bind (·.stop.column)).isSome
      if startsAndEndsOnSameLine && hasCodeBeforeStart && hasCodeAfterEnd then false
      else if !startsAndEndsOnSameLine && (hasCodeBeforeStart || hasCodeAfterEnd) then false
      else true
    | _, _ => false

/-- The accumulator of the inner-content loop of
`getCommentFromMatchingSyntaxPair`. -/
structure MlContentAcc where
  commentRange : SourceRange
  contents : List Str
  contentRanges : List SourceRange

/-- The inner-content loop of `getCommentFromMatchingSyntaxPair`: collect
content lines, shrinking the comment range at prose before the tag and
truncating it at a `---` separator or a following tag. -/
def mlContentLoop (codeLines : List Str) (tag : AnnotTag) (innerRange : SourceRange)
    (continuationLineStart : Option (Str → Option Nat)) :
    List Int → MlContentAcc → MlContentAcc
  | [], acc => acc
  | lineIndex :: restIdx, acc =>
    let startColumn :=
      if lineIndex = tag.range.stop.line then tag.range.stop.column
      else if lineIndex = innerRange.start.line then innerRange.start.column
      else none
    let endColumn := if lineIndex = innerRange.stop.line then innerRange.stop.column else none
    let (content, contentRange) :=
      getTextContentInLine codeLines lineIndex startColumn endColumn continuationLineStart
    if lineIndex < tag.range.stop.line then
      let acc :=
        if content.length ≠ 0 then
          { acc with
              commentRange :=
                { start := { line := tag.range.start.line }
                  stop := innerRange.stop } }
        else acc
      mlContentLoop codeLines tag innerRange continuationLineStart restIdx acc
    else if lineIndex ≥ tag.range.stop.line ∧ content = ("---").data then
      { acc with
          commentRange :=
            { start := { line := tag.range.start.line }
              stop := { line := lineIndex } } }
    else if lineIndex ≥ tag.range.stop.line ∧ (("[!").data).isPrefixOf content then
      { acc with
          commentRange :=
            { start := { line := tag.range.start.line }
              stop := { line := lineIndex - 1 } } }
    else
      mlContentLoop codeLines tag innerRange continuationLineStart restIdx
        { acc with
            contents := acc.contents ++ [content]
            contentRanges := acc.contentRanges ++ [contentRange] }

/-- `getCommentFromMatchingSyntaxPair`: select the best (innermost, longest
delimiter) valid pair and assemble the comment. The returned record carries no
`annotationRange` (the source object literal omits that field). -/
def getCommentFromMatchingSyntaxPair (codeLines : List Str) (tag : AnnotTag)
    (commentSyntaxMatches : List MlPartial) : Option AnnotComment :=
  let bestMatchIndex : Int :=
    commentSyntaxMatches.enum.foldl (fun previousBestIndex (index, m) =>
      if !isValidFullMatch m then previousBestIndex
      else if previousBestIndex = -1 then (index : Int)
      else
        let dummy := createSingleLineRange 0
        let previousBestMatch := commentSyntaxMatches.getD previousBestIndex.toNat default
        if compareRanges (previousBestMatch.openingRange.getD dummy)
              (m.openingRange.getD dummy) .stop > 0 ∨
            compareRanges (previousBestMatch.closingRange.getD dummy)
              (m.closingRange.getD dummy) .start < 0 then
          (index : Int)
        else previousBestIndex)
      (-1 : Int)
  if bestMatchIndex > -1 then
    let m := commentSyntaxMatches.getD bestMatchIndex.toNat default
    let syn := multiLineCommentSyntaxes.getD bestMatchIndex.toNat default
    let dummy := createSingleLineRange 0
    let openingRange := m.openingRange.getD dummy
    let openingWs := m.openingRangeWithWhitespace.getD dummy
    let closingRange := m.closingRange.getD dummy
    let closingWs := m.closingRangeWithWhitespace.getD dummy
    let isOnSingleLine := openingRange.start.line = closingRange.stop.line
    let isOnSingleLineBeforeCode := isOnSingleLine ∧ optTruthy closingWs.stop.column
    let commentRange : SourceRange :=
      { start := if isOnSingleLineBeforeCode then openingRange.start else openingWs.start
        stop := closingWs.stop }
    let innerRange : SourceRange := { start := openingWs.stop, stop := closingWs.start }
    let innerRange :=
      if !optTruthy innerRange.start.column ∧ ¬isOnSingleLine then
        { innerRange with start := { line := innerRange.start.line + 1 } }
      else innerRange
    let innerRange :=
      if !optTruthy innerRange.stop.column ∧ ¬isOnSingleLine then
        { innerRange with stop := { line := innerRange.stop.line - 1 } }
      else innerRange
    let result :=
      mlContentLoop codeLines tag innerRange syn.continuationLineStart
        (intRangeList innerRange.start.line (innerRange.stop.line + 1))
        { commentRange := commentRange, contents := [], contentRanges := [] }
    let leadingEmpty := (result.contents.takeWhile List.isEmpty).length
    let contents := result.contents.drop leadingEmpty
    let contentRanges := result.contentRanges.drop leadingEmpty
    let trailingEmpty := (contents.reverse.takeWhile List.isEmpty).length
    let contents := contents.take (contents.length - trailingEmpty)
    let contentRanges := contentRanges.take (contentRanges.length - trailingEmpty)
    some { tag := tag
           contents := contents
           commentRange := result.commentRange
           annotationRange := none
           contentRanges := contentRanges
           targetRanges := [] }
  else none

/-- The once-only forward scan of `parseMultiLineParentComment` for closing
sequences; returns the final state, whether any closing was found, and an
early comment result. -/
def mlForwardScan (codeLines : List Str) (tag : AnnotTag) (tagLineIndex tagEndColumn : Int) :
    List Int → List MlPartial → Bool → List MlPartial × Bool × Option AnnotComment
  | [], state, foundAnyClosings => (state, foundAnyClosings, none)
  | closingLineIndex :: restIdx, state, foundAnyClosings =>
    let (state, found) :=
      findCommentSyntaxMatches .closing state codeLines closingLineIndex
        (if closingLineIndex = tagLineIndex then some tagEndColumn else none) none
    if found then
      match getCommentFromMatchingSyntaxPair codeLines tag state with
      | some comment => (state, true, some comment)
      | none => mlForwardScan codeLines tag tagLineIndex tagEndColumn restIdx state true
    else mlForwardScan codeLines tag tagLineIndex tagEndColumn restIdx state foundAnyClosings

/-- The backward scan of `parseMultiLineParentComment` for opening sequences,
with the embedded once-only forward scan. -/
def mlBackwardScan (codeLines : List Str) (tag : AnnotTag)
    (tagLineIndex tagStartColumn tagEndColumn : Int) (forwardIdxs : List Int) :
    List Int → List MlPartial → Bool → Option AnnotComment
  | [], _, _ => none
  | openingLineIndex :: restIdx, state, scannedForClosings =>
    let (state, found) :=
      findCommentSyntaxMatches .opening state codeLines openingLineIndex none
        (if openingLineIndex = tagLineIndex then some tagStartColumn else none)
    if found then
      match getCommentFromMatchingSyntaxPair codeLines tag state with
      | some comment => some comment
      | none =>
        if !scannedForClosings then
          let (state, foundAnyClosings, comment?) :=
            mlForwardScan codeLines tag tagLineIndex tagEndColumn forwardIdxs state false
          match comment? with
          | some comment => some comment
          | none =>
            if !foundAnyClosings then none
            else
              mlBackwardScan codeLines tag tagLineIndex tagStartColumn tagEndColumn
                forwardIdxs restIdx state true
        else
          mlBackwardScan codeLines tag tagLineIndex tagStartColumn tagEndColumn
            forwardIdxs restIdx state scannedForClosings
    else
      mlBackwardScan codeLines tag tagLineIndex tagStartColumn tagEndColumn
        forwardIdxs restIdx state scannedForClosings

/-- `parseMultiLineParentComment`. -/
def parseMultiLineParentComment (codeLines : List Str) (tag : AnnotTag) :
    Option AnnotComment :=
  let tagLineIndex := tag.range.start.line
  let tagLine := jsGetLine codeLines tagLineIndex
  let tagStartColumn := tag.range.start.column.getD 0
  let tagEndColumn := tag.range.stop.column.getD tagLine.length
  let initialState : List MlPartial := multiLineCommentSyntaxes.map fun _ => {}
  mlBackwardScan codeLines tag tagLineIndex tagStartColumn tagEndColumn
    (intRangeList tagLineIndex codeLines.length)
    ((intRangeList 0 (tagLineIndex + 1)).reverse) initialState false

/-- `parseParentComment` of `src/parsers/parent-comment.ts`: the single-line
strategy, then the multi-line strategy. -/
def parseParentComment (codeLines : List Str) (tag : AnnotTag) : Option AnnotComment :=
  match parseSingleLineParentComment codeLines tag with
  | some singleLineComment => some singleLineComment
  | none => parseMultiLineParentComment codeLines tag

/-! ## `parseAnnotationComments` (the revision embedded in `src/core/types.ts`)

The per-tag processing is factored into a step function that also reports, for
the temporal claim, what happened to the tag and whether the parent-comment
locator was invoked on it. -/

/-- What the orchestrator did with one scanned tag. -/
inductive TagOutcome where
  /-- Skipped because the tag lies inside the previous comment's content ranges. -/
  | skippedPrevContent
  /-- The parent-comment locator found no enclosing comment. -/
  | noParentComment
  /-- Suppressed by the line-index cutoff of an `ignore-tags` directive. -/
  | suppressedByLine
  /-- Suppressed by a per-tag-name remaining-suppression counter. -/
  | suppressedByName
  /-- A validated `ignore-tags` directive; its suppression state was recorded. -/
  | directiveApplied
  /-- An `ignore-tags` directive with an invalid (column-bearing) placement. -/
  | directiveInvalid
  /-- Added to the resulting annotation comments. -/
  | emitted
deriving DecidableEq, Repr

/-- JS `Map.get` over an insertion-ordered association list. -/
def mapGet (m : List (Str × Int)) (k : Str) : Option Int :=
  (m.find? (fun p => p.1 == k)).map (·.2)

/-- JS `Map.set`: overwrite in place or append. -/
def mapSet (m : List (Str × Int)) (k : Str) (v : Int) : List (Str × Int) :=
  if m.any (fun p => p.1 == k) then m.map (fun p => if p.1 == k then (k, v) else p)
  else m ++ [(k, v)]

/-- JS `String.prototype.split(',')`. -/
def splitOnComma (s : Str) : List Str :=
  s.foldr (fun c acc =>
    match acc with
    | cur :: rest => if c = ',' then [] :: cur :: rest else (c :: cur) :: rest
    | [] => [[c]]) [[]]

/-- The mutable state of one `parseAnnotationComments` call. -/
structure ParseState where
  ignoreCountPerTagName : List (Str × Int) := []
  tagsIgnoredUntilLineIndex : Int := -1
  previousContentRanges : List SourceRange := []
  annotationComments : List AnnotComment := []

/-- One iteration of the `annotationTags.forEach` loop of
`parseAnnotationComments`: returns the new state, the tag's outcome, and
whether `parseParentComment` was invoked on the tag. Reading
`comment.annotationRange` throws (a `TypeError`) when the parent comment came
from the multi-line strategy, which does not set that field. -/
def parseStep (codeLines : List Str) (st : ParseState) (tag : AnnotTag) :
    Except Str (ParseState × TagOutcome × Bool) :=
  if st.previousContentRanges.any (fun range => secondRangeIsInFirst range tag.range) then
    .ok (st, .skippedPrevContent, false)
  else
    match parseParentComment codeLines tag with
    | none => .ok (st, .noParentComment, true)
    | some comment =>
      if st.tagsIgnoredUntilLineIndex ≥ tag.range.start.line then
        .ok (st, .suppressedByLine, true)
      else
        let ignoreCount := (mapGet st.ignoreCountPerTagName tag.name).getD 0
        if ignoreCount > 0 then
          .ok ({ st with
                   ignoreCountPerTagName :=
                     mapSet st.ignoreCountPerTagName tag.name (ignoreCount - 1) },
               .suppressedByName, true)
        else if tag.name = ("ignore-tags").data then
          match comment.annotationRange with
          | none => .error ("TypeError: annotationRange is undefined").data
          | some annotationRange =>
            if optTruthy annotationRange.start.column ∨ optTruthy annotationRange.stop.column then
              .ok (st, .directiveInvalid, true)
            else
              let ignoreRange := tag.relativeTargetRange.getD 1
              match tag.targetSearchQuery with
              | some (.inl q) =>
                let targetTagNames := (splitOnComma q).map jsTrim
                .ok ({ st with
                         ignoreCountPerTagName :=
                           targetTagNames.foldl (fun m n => mapSet m n ignoreRange)
                             st.ignoreCountPerTagName },
                     .directiveApplied, true)
              | _ =>
                if ignoreRange > 0 then
                  .ok ({ st with
                           tagsIgnoredUntilLineIndex := tag.range.stop.line + ignoreRange },
                       .directiveApplied, true)
                else .ok (st, .directiveApplied, true)
        else
          .ok ({ st with
                   annotationComments := st.annotationComments ++ [comment]
                   previousContentRanges := comment.contentRanges },
               .emitted, true)

/-- `parseAnnotationComments` with the per-tag trace (the second component
records each tag's outcome and whether the locator was invoked on it). -/
def parseAnnotationCommentsTrace (compile : RegexCompiler) (codeLines : List Str) :
    Except Str (List AnnotComment × List (AnnotTag × TagOutcome × Bool)) := do
  let annotationTags ← parseAnnotationTags compile codeLines
  let (st, trace) ← annotationTags.foldlM
    (fun (st, tr) tag => do
      let (st, outcome, invokedLocator) ← parseStep codeLines st tag
      pure (st, tr ++ [(tag, outcome, invokedLocator)]))
    (({} : ParseState), [])
  pure (st.annotationComments, trace)

/-- `parseAnnotationComments` of the revision in `src/core/types.ts`. -/
def parseAnnotComments (compile : RegexCompiler) (codeLines : List Str) :
    Except Str (List AnnotComment) :=
  (parseAnnotationCommentsTrace compile codeLines).map Prod.fst

/-! ## Line contents outside annotation comments

Two revisions exist: the local helper of `src/core/find-targets.ts` (namespace
`FT`), which seeds the line with explicit `0`/`lineLength` columns and cuts the
comment ranges out with a `splice` loop, and the shared helper of
`src/internal/text-content.ts` (namespace `TC`), which derives the same
information through `excludeRangesFromOuterRange`. The JS `splice` loop of the
`FT` revision walks indices downward, edits in place and inserts behind the
cursor, which is the `flatMap` below. -/

structure LineContents where
  lineIndex : Int
  contentRanges : List SourceRange
  nonWhitespaceContentRanges : List SourceRange
  hasNonWhitespaceContent : Bool

namespace FT

/-- `getNonAnnotationCommentLineContents` of `src/core/find-targets.ts`. -/
def getNonAnnotationCommentLineContents (lineIndex : Int) (codeLines : List Str)
    (annotationComments : List AnnotComment) : LineContents :=
  let line := jsGetLine codeLines lineIndex
  let lineLength : Int := line.length
  let init : List SourceRange :=
    [{ start := { line := lineIndex, column := some 0 }
       stop := { line := lineIndex, column := some lineLength } }]
  let contentRanges := annotationComments.foldl (fun ranges comment =>
    let commentRange := comment.commentRange
    if commentRange.start.line > lineIndex ∨ commentRange.stop.line < lineIndex then ranges
    else
      let commentStartColumn :=
        if commentRange.start.line = lineIndex then commentRange.start.column.getD 0 else 0
      let commentEndColumn :=
        if commentRange.stop.line = lineIndex then commentRange.stop.column.getD lineLength
        else lineLength
      ranges.flatMap fun nonAnnotationRange =>
        let rangeStartColumn := nonAnnotationRange.start.column.getD 0
        let rangeEndColumn := nonAnnotationRange.stop.column.getD lineLength
        if commentStartColumn ≤ rangeStartColumn ∧ commentEndColumn ≥ rangeEndColumn then []
        else if commentStartColumn ≤ rangeStartColumn ∧ commentEndColumn < rangeEndColumn then
          [{ nonAnnotationRange with
               start := { nonAnnotationRange.start with column := some commentEndColumn } }]
        else if commentStartColumn > rangeStartColumn ∧ commentEndColumn ≥ rangeEndColumn then
          [{ nonAnnotationRange with
               stop := { nonAnnotationRange.stop with column := some commentStartColumn } }]
        else if commentStartColumn > rangeStartColumn ∧ commentEndColumn < rangeEndColumn then
          [{ nonAnnotationRange with
               stop := { nonAnnotationRange.stop with column := some commentStartColumn } },
           { start := { line := lineIndex, column := some commentEndColumn }
             stop := { line := lineIndex, column := some rangeEndColumn } }]
        else [nonAnnotationRange])
    init
  let nonWhitespaceContentRanges := contentRanges.filter fun range =>
    searchNonWs (jsSliceO line range.start.column range.stop.column) > -1
  { lineIndex := lineIndex
    contentRanges := contentRanges
    nonWhitespaceContentRanges := nonWhitespaceContentRanges
    hasNonWhitespaceContent := nonWhitespaceContentRanges.length ≠ 0 }

/-- `getFirstNonAnnotationCommentLineContents`: the first line above/below with
contents not fully consisting of annotation comments. -/
def getFirstNonAnnotationCommentLineContents (startLineIndex : Int) (below : Bool)
    (codeLines : List Str) (annotationComments : List AnnotComment) : Option LineContents :=
  let idxs :=
    if below then intRangeList (startLineIndex + 1) codeLines.length
    else (intRangeList 0 startLineIndex).reverse
  firstSomeMap (fun lineIndex =>
    let contents := getNonAnnotationCommentLineContents lineIndex codeLines annotationComments
    if contents.contentRanges.length ≠ 0 then some contents else none) idxs

/-- The plaintext-query `while` loop of `findSearchQueryMatchesInLine`
(`idx = content.indexOf(...)`), with fuel bounding the (in the reachable cases
strictly advancing) iteration. -/
def strSearchAux (codeLines : List Str) (lineIndex startColumn : Int) (content q : Str) :
    Nat → Int → List SourceRange
  | 0, _ => []
  | fuel + 1, idx =>
    if idx > -1 then
      createRange codeLines
        { line := lineIndex, column := some (startColumn + idx) }
        { line := lineIndex, column := some (startColumn + idx + q.length) } ::
      strSearchAux codeLines lineIndex startColumn content q fuel
        (jsIndexOfFrom content q (idx + q.length).toNat)
    else []

/-- `findSearchQueryMatchesInLine` of `src/core/find-targets.ts` (searching one
content range of a line). -/
def findSearchQueryMatchesInLine (searchQuery : Str ⊕ JsRegex) (rangeToSearch : SourceRange)
    (codeLines : List Str) : List SourceRange :=
  let lineIndex := rangeToSearch.start.line
  let startColumn := rangeToSearch.start.column.getD 0
  let content := jsSliceO (jsGetLine codeLines lineIndex) (some startColumn)
    rangeToSearch.stop.column
  match searchQuery with
  | .inl q =>
    strSearchAux codeLines lineIndex startColumn content q (content.length + 1)
      (jsIndexOfFrom content q 0)
  | .inr regExp =>
    (regExp content).flatMap fun m =>
      let rawGroupIndices := getGroupIndicesFromRegExpMatch m
      let groupIndices := rawGroupIndices.filterMap id
      let groupIndices :=
        if groupIndices.length = 0 then [(m.index, m.index + m.matched.length)]
        else groupIndices
      let groupIndices := if groupIndices.length > 1 then groupIndices.tail else groupIndices
      groupIndices.map fun range =>
        createRange codeLines
          { line := lineIndex, column := some (startColumn + range.1) }
          { line := lineIndex, column := some (startColumn + range.2) }

/-- The line-counting `while` loop of `findAnnotationTargets` (explicit
relative target range without a search query). -/
def lineWalk (codeLines : List Str) (annotationComments : List AnnotComment) (step : Int) :
    Nat → Int → Nat → List SourceRange
  | 0, _, _ => []
  | fuel + 1, lineIndex, remainingLines =>
    if 0 ≤ lineIndex ∧ lineIndex < (codeLines.length : Int) ∧ remainingLines > 0 then
      let lineContents := getNonAnnotationCommentLineContents lineIndex codeLines annotationComments
      if lineContents.contentRanges.length ≠ 0 then
        createSingleLineRange lineIndex ::
        lineWalk codeLines annotationComments step fuel (lineIndex + step) (remainingLines - 1)
      else lineWalk codeLines annotationComments step fuel (lineIndex + step) remainingLines
    else []

/-- The match-searching `while` loop of `findAnnotationTargets` (search query
present). The inner `while` over `matchIndex` pushes, in step direction, up to
`remainingMatches` of the line's matches: forward that is a prefix, backward a
prefix of the reversed list. -/
def searchWalk (codeLines : List Str) (annotationComments : List AnnotComment)
    (searchQuery : Str ⊕ JsRegex) (step : Int) :
    Nat → Int → Nat → List SourceRange
  | 0, _, _ => []
  | fuel + 1, lineIndex, remainingMatches =>
    if 0 ≤ lineIndex ∧ lineIndex < (codeLines.length : Int) ∧ remainingMatches > 0 then
      let lineContents := getNonAnnotationCommentLineContents lineIndex codeLines annotationComments
      let lineMatches := lineContents.contentRanges.flatMap fun contentRange =>
        findSearchQueryMatchesInLine searchQuery contentRange codeLines
      let picked := if step > 0 then lineMatches.take remainingMatches
        else lineMatches.reverse.take remainingMatches
      picked ++
      searchWalk codeLines annotationComments searchQuery step fuel (lineIndex + step)
        (remainingMatches - picked.length)
    else []

/-- JS truthiness of `targetSearchQuery` (an empty string is falsy). -/
def queryTruthy : Option (Str ⊕ JsRegex) → Bool
  | none => false
  | some (.inl q) => !q.isEmpty
  | some (.inr _) => true

/-- The body of the `annotationComments.forEach` of `findAnnotationTargets`
(`src/core/find-targets.ts`): the target ranges pushed for one comment.
Reading `annotationRange` during direction inference throws when the comment
has none. -/
def findTargetsForComment (codeLines : List Str) (annotationComments : List AnnotComment)
    (comment : AnnotComment) : Except Str (List SourceRange) :=
  let tag := comment.tag
  if tag.name = ("ignore-tags").data then .ok []
  else
    let commentLineIndex := comment.commentRange.start.line
    let commentLineContents :=
      getNonAnnotationCommentLineContents commentLineIndex codeLines annotationComments
    let relativeTargetRange := tag.relativeTargetRange
    let targetSearchQuery := tag.targetSearchQuery
    let fuel := codeLines.length
    -- `if (targetSearchQuery === undefined)`
    let fullLineTargets : List SourceRange :=
      if targetSearchQuery.isNone then
        match relativeTargetRange with
        | none =>
          if commentLineContents.hasNonWhitespaceContent then
            [createSingleLineRange commentLineIndex]
          else
            match getFirstNonAnnotationCommentLineContents commentLineIndex true codeLines
              annotationComments with
            | some potentialTargetBelow =>
              if potentialTargetBelow.hasNonWhitespaceContent then
                [createSingleLineRange potentialTargetBelow.lineIndex]
              else
                match getFirstNonAnnotationCommentLineContents commentLineIndex false codeLines
                  annotationComments with
                | some potentialTargetAbove =>
                  if potentialTargetAbove.hasNonWhitespaceContent then
                    [createSingleLineRange potentialTargetAbove.lineIndex]
                  else []
                | none => []
            | none =>
              match getFirstNonAnnotationCommentLineContents commentLineIndex false codeLines
                annotationComments with
              | some potentialTargetAbove =>
                if potentialTargetAbove.hasNonWhitespaceContent then
                  [createSingleLineRange potentialTargetAbove.lineIndex]
                else []
              | none => []
        | some relativeTargetRange =>
          let step : Int := if relativeTargetRange > 0 then 1 else -1
          lineWalk codeLines annotationComments step fuel commentLineIndex
            relativeTargetRange.natAbs
      else []
    -- `if (targetSearchQuery)`
    if queryTruthy targetSearchQuery then
      match targetSearchQuery with
      | some searchQuery =>
        let inferred : Except Str Int :=
          match relativeTargetRange with
          | some r => .ok r
          | none =>
            if commentLineContents.hasNonWhitespaceContent then
              match comment.annotationRange with
              | none => .error ("TypeError: annotationRange is undefined").data
              | some annotationRange =>
                let hasContentBeforeAnnotation :=
                  commentLineContents.nonWhitespaceContentRanges.any fun contentRange =>
                    compareRanges annotationRange contentRange .start < 0
                .ok (if hasContentBeforeAnnotation then -1 else 1)
            else
              let isGroupedWithContentAbove :=
                !(((getFirstNonAnnotationCommentLineContents commentLineIndex true codeLines
                    annotationComments).map (·.hasNonWhitespaceContent)).getD false) &&
                (((getFirstNonAnnotationCommentLineContents commentLineIndex false codeLines
                    annotationComments).map (·.hasNonWhitespaceContent)).getD false)
              .ok (if isGroupedWithContentAbove then -1 else 1)
        inferred.map fun relativeTargetRange =>
          let step : Int := if relativeTargetRange > 0 then 1 else -1
          fullLineTargets ++
          searchWalk codeLines annotationComments searchQuery step fuel commentLineIndex
            relativeTargetRange.natAbs
      | none => .ok fullLineTargets
    else .ok fullLineTargets

/-- `findAnnotationTargets` of `src/core/find-targets.ts`: append every
comment's resolved target ranges. -/
def findAnnotationTargets (codeLines : List Str) (annotationComments : List AnnotComment) :
    Except Str (List AnnotComment) :=
  annotationComments.mapM fun comment =>
    (findTargetsForComment codeLines annotationComments comment).map fun appended =>
      { comment with targetRanges := comment.targetRanges ++ appended }

end FT

namespace TC

/-- `getNonAnnotationCommentLineContents` of `src/internal/text-content.ts`
(the revision built on `excludeRangesFromOuterRange`). -/
def getNonAnnotationCommentLineContents (lineIndex : Int) (codeLines : List Str)
    (annotationComments : List AnnotComment) : LineContents :=
  let contentRanges :=
    excludeRangesFromOuterRange codeLines (createSingleLineRange lineIndex)
      (annotationComments.map (·.commentRange))
  let nonWhitespaceContentRanges := excludeWhitespaceRanges codeLines contentRanges
  { lineIndex := lineIndex
    contentRanges := contentRanges
    nonWhitespaceContentRanges := nonWhitespaceContentRanges
    hasNonWhitespaceContent := nonWhitespaceContentRanges.length ≠ 0 }

/-- `getFirstNonAnnotationCommentLineContents` of `src/internal/text-content.ts`. -/
def getFirstNonAnnotationCommentLineContents (startLineIndex : Int) (below : Bool)
    (codeLines : List Str) (annotationComments : List AnnotComment) : Option LineContents :=
  let idxs :=
    if below then intRangeList (startLineIndex + 1) codeLines.length
    else (intRangeList 0 startLineIndex).reverse
  firstSomeMap (fun lineIndex =>
    let contents := getNonAnnotationCommentLineContents lineIndex codeLines annotationComments
    if contents.contentRanges.length ≠ 0 then some contents else none) idxs

/-- `findSearchQueryMatchesInLine` of `src/internal/text-content.ts`: search
every non-annotation content range of a whole line. -/
def findSearchQueryMatchesInLine (lineIndex : Int) (searchQuery : Str ⊕ JsRegex)
    (codeLines : List Str) (annotationComments : List AnnotComment) : List SourceRange :=
  let line := jsGetLine codeLines lineIndex
  let lineContents := getNonAnnotationCommentLineContents lineIndex codeLines annotationComments
  lineContents.contentRanges.flatMap fun contentRange =>
    let startColumn := contentRange.start.column.getD 0
    let content := jsSliceO line (some startColumn) contentRange.stop.column
    match searchQuery with
    | .inl q =>
      FT.strSearchAux codeLines lineIndex startColumn content q (content.length + 1)
        (jsIndexOfFrom content q 0)
    | .inr regExp =>
      (findRegExpMatchColumnRanges content regExp).map fun matchRange =>
        createRange codeLines
          { line := lineIndex, column := some (startColumn + matchRange.1) }
          { line := lineIndex, column := some (startColumn + matchRange.2) }

end TC

/-! ## `findAnnotationTargets` of `src/unnamed/part_008` (the revision that
re-sorts backward results, namespace `V2`) -/

namespace V2

/-- The line-counting `while` loop (explicit relative range, no query),
checking lines through the shared `TC` helper. -/
def lineWalk (codeLines : List Str) (annotationComments : List AnnotComment) (step : Int) :
    Nat → Int → Nat → List SourceRange
  | 0, _, _ => []
  | fuel + 1, lineIndex, remainingLines =>
    if 0 ≤ lineIndex ∧ lineIndex < (codeLines.length : Int) ∧ remainingLines > 0 then
      let lineContents :=
        TC.getNonAnnotationCommentLineContents lineIndex codeLines annotationComments
      if lineContents.contentRanges.length ≠ 0 then
        createSingleLineRange lineIndex ::
        lineWalk codeLines annotationComments step fuel (lineIndex + step) (remainingLines - 1)
      else lineWalk codeLines annotationComments step fuel (lineIndex + step) remainingLines
    else []

/-- The match-searching `while` loop (query present), searching whole lines
through `TC.findSearchQueryMatchesInLine`; the inner `while` over `matchIndex`
picks, in step direction, up to `remainingMatches` matches. -/
def searchWalk (codeLines : List Str) (annotationComments : List AnnotComment)
    (searchQuery : Str ⊕ JsRegex) (step : Int) :
    Nat → Int → Nat → List SourceRange
  | 0, _, _ => []
  | fuel + 1, lineIndex, remainingMatches =>
    if 0 ≤ lineIndex ∧ lineIndex < (codeLines.length : Int) ∧ remainingMatches > 0 then
      let lineMatches :=
        TC.findSearchQueryMatchesInLine lineIndex searchQuery codeLines annotationComments
      let picked := if step > 0 then lineMatches.take remainingMatches
        else lineMatches.reverse.take remainingMatches
      picked ++
      searchWalk codeLines annotationComments searchQuery step fuel (lineIndex + step)
        (remainingMatches - picked.length)
    else []

/-- The body of the `annotationComments.forEach` of
`src/unnamed/part_008`'s `findAnnotationTargets`: the comment with its target
ranges appended and, for a negative (given or inferred) relative target range,
re-sorted with `compareRanges(b, a, 'start')` under the snapshot's
`compareRanges`. The two `return`ing sub-branches (an `ignore-tags` comment and
the no-query/no-range case) skip the sort. -/
def findTargetsForComment (codeLines : List Str) (annotationComments : List AnnotComment)
    (comment : AnnotComment) : AnnotComment :=
  let tag := comment.tag
  if tag.name = ("ignore-tags").data then comment
  else
    let commentLineIndex := comment.commentRange.start.line
    let commentLineContents :=
      TC.getNonAnnotationCommentLineContents commentLineIndex codeLines annotationComments
    let fuel := codeLines.length
    let sortIfBackward := fun (relativeTargetRange : Int) (targetRanges : List SourceRange) =>
      if relativeTargetRange < 0 then
        jsSortBy (fun a b => compareRanges b a .start) targetRanges
      else targetRanges
    match tag.targetSearchQuery with
    | none =>
      match tag.relativeTargetRange with
      | none =>
        let pushed :=
          if commentLineContents.hasNonWhitespaceContent then
            [createSingleLineRange commentLineIndex]
          else
            match TC.getFirstNonAnnotationCommentLineContents commentLineIndex true codeLines
              annotationComments with
            | some potentialTargetBelow =>
              if potentialTargetBelow.hasNonWhitespaceContent then
                [createSingleLineRange potentialTargetBelow.lineIndex]
              else
                match TC.getFirstNonAnnotationCommentLineContents commentLineIndex false codeLines
                  annotationComments with
                | some potentialTargetAbove =>
                  if potentialTargetAbove.hasNonWhitespaceContent then
                    [createSingleLineRange potentialTargetAbove.lineIndex]
                  else []
                | none => []
            | none =>
              match TC.getFirstNonAnnotationCommentLineContents commentLineIndex false codeLines
                annotationComments with
              | some potentialTargetAbove =>
                if potentialTargetAbove.hasNonWhitespaceContent then
                  [createSingleLineRange potentialTargetAbove.lineIndex]
                else []
              | none => []
        { comment with targetRanges := comment.targetRanges ++ pushed }
      | some relativeTargetRange =>
        let step : Int := if relativeTargetRange > 0 then 1 else -1
        let targetRanges := comment.targetRanges ++
          lineWalk codeLines annotationComments step fuel commentLineIndex
            relativeTargetRange.natAbs
        { comment with targetRanges := sortIfBackward relativeTargetRange targetRanges }
    | some searchQuery =>
      let relativeTargetRange :=
        match tag.relativeTargetRange with
        | some r => r
        | none =>
          if commentLineContents.hasNonWhitespaceContent then 1
          else
            let isGroupedWithContentAbove :=
              !(((TC.getFirstNonAnnotationCommentLineContents commentLineIndex true codeLines
                  annotationComments).map (·.hasNonWhitespaceContent)).getD false) &&
              (((TC.getFirstNonAnnotationCommentLineContents commentLineIndex false codeLines
                  annotationComments).map (·.hasNonWhitespaceContent)).getD false)
            if isGroupedWithContentAbove then -1 else 1
      let step : Int := if relativeTargetRange > 0 then 1 else -1
      let targetRanges := comment.targetRanges ++
        searchWalk codeLines annotationComments searchQuery step fuel commentLineIndex
          relativeTargetRange.natAbs
      { comment with targetRanges := sortIfBackward relativeTargetRange targetRanges }

/-- `findAnnotationTargets` of `src/unnamed/part_008`. -/
def findAnnotationTargets (codeLines : List Str) (annotationComments : List AnnotComment) :
    List AnnotComment :=
  annotationComments.map (findTargetsForComment codeLines annotationComments)

end V2

/-! ## `cleanCode` (`src/core/clean.ts`)

The cleaner operates on the later `AnnotationComment` revision that also
carries `commentInnerRange` (and a mandatory `annotationRange`). The
caller-supplied `removeAnnotationContents` option (`boolean` or a per-comment
decision function) is modelled as a decision function; the `handleRemoveLine`
and `handleEditLine` hooks are left at their default (absent), so the built-in
in-place mutation applies. -/

instance : Inhabited SourceLocation := ⟨{ line := 0 }⟩

instance : Inhabited SourceRange := ⟨createSingleLineRange 0⟩

/-- The cleaner-revision annotation comment record. -/
structure CleanComment where
  tag : AnnotTag
  contents : List Str
  commentRange : SourceRange
  commentInnerRange : SourceRange
  annotationRange : SourceRange
  contentRanges : List SourceRange
  targetRanges : List SourceRange

/-- A planned per-line change (`RemoveLine | EditLine`). -/
inductive SourceChange where
  | removeLine (lineIndex : Int)
  | editLine (lineIndex : Int) (startColumn endColumn : Int) (newText : Option Str)
deriving DecidableEq, Repr

/-- The first pass of `cleanCode`: one removal range per annotation comment
(the whole annotation, or just the tag when contents are kept), folding an
immediately preceding whitespace-only line into a whole-annotation removal. -/
def firstPassRanges (codeLines : List Str) (removeAnnotationContents : CleanComment → Bool)
    (annotationComments : List CleanComment) : List SourceRange :=
  annotationComments.map fun annotationComment =>
    let hasContents := annotationComment.contents.length ≠ 0
    let removeEntireAnnotation :=
      !hasContents || removeAnnotationContents annotationComment
    let rangeToBeRemoved :=
      cloneRange (if removeEntireAnnotation then annotationComment.annotationRange
        else annotationComment.tag.range)
    let lineAboveIndex := rangeToBeRemoved.start.line - 1
    if removeEntireAnnotation ∧
        annotationComment.commentInnerRange.start.line < lineAboveIndex then
      let contentInLineAbove :=
        excludeWhitespaceRanges codeLines [createSingleLineRange lineAboveIndex]
      if contentInLineAbove.length = 0 then
        { rangeToBeRemoved with start := { line := lineAboveIndex } }
      else rangeToBeRemoved
    else rangeToBeRemoved

/-- The second pass of `cleanCode`: for every distinct parent comment whose
inner range holds nothing but whitespace once the planned removals are
subtracted, schedule the entire comment (outer range) for removal as well. -/
def collapsePass (codeLines : List Str) (annotationComments : List CleanComment)
    (rangesToBeRemoved : List SourceRange) : List SourceRange :=
  (annotationComments.foldl
    (fun (handledRanges, ranges) comment =>
      if handledRanges.any (fun range => rangesAreEqual range comment.commentInnerRange) then
        (handledRanges, ranges)
      else
        let handledRanges := handledRanges ++ [comment.commentInnerRange]
        if ranges.any (fun range => rangesAreEqual range comment.commentRange) then
          (handledRanges, ranges)
        else
          let remainingParts :=
            excludeRangesFromOuterRange codeLines comment.commentInnerRange ranges
          let nonWhitespaceParts := excludeWhitespaceRanges codeLines remainingParts
          if nonWhitespaceParts.length = 0 then (handledRanges, ranges ++ [comment.commentRange])
          else (handledRanges, ranges))
    (([] : List SourceRange), rangesToBeRemoved)).2

/-- `getRangeRemovalChanges`: decompose one merged removal range into per-line
edits and whole-line removals. -/
def getRangeRemovalChanges (codeLines : List Str) (range : SourceRange) : List SourceChange :=
  (splitRangeByLines range).map fun singleLineRange =>
    let lineIndex := singleLineRange.start.line
    let lineLength : Int := (jsGetLine codeLines lineIndex).length
    let startColumn := singleLineRange.start.column.getD 0
    let endColumn := singleLineRange.stop.column.getD lineLength
    if startColumn > 0 ∨ endColumn < lineLength then
      .editLine lineIndex startColumn endColumn (some [])
    else .removeLine lineIndex

/-- The `forEach`-with-`splice` loop of `updateTargetRangesAfterRemoveLine`:
the iteration count is the array's initial length, each step addresses the
current array at the running index (JS `forEach` skips indices the `splice`
shifted past the end), removing ranges anchored on the removed line and
shifting later ones up. -/
def removeLineForEach (lineIndex : Int) : Nat → Nat → List SourceRange → List SourceRange
  | 0, _, targetRanges => targetRanges
  | n + 1, k, targetRanges =>
    if k < targetRanges.length then
      let targetRange := targetRanges.getD k default
      if targetRange.start.line = lineIndex then
        removeLineForEach lineIndex n (k + 1) (targetRanges.eraseIdx k)
      else if targetRange.start.line > lineIndex then
        removeLineForEach lineIndex n (k + 1)
          (targetRanges.set k
            { start := { targetRange.start with line := targetRange.start.line - 1 }
              stop := { targetRange.stop with line := targetRange.stop.line - 1 } })
      else removeLineForEach lineIndex n (k + 1) targetRanges
    else removeLineForEach lineIndex n (k + 1) targetRanges

/-- `updateTargetRangesAfterRemoveLine` for one comment's target ranges. -/
def updateTargetRangesAfterRemoveLine (lineIndex : Int) (targetRanges : List SourceRange) :
    List SourceRange :=
  removeLineForEach lineIndex targetRanges.length 0 targetRanges

/-- `updateLocationIfNecessary`: shift a column hit by an in-line edit by the
edit's length delta (untouched when the location has no truthy column or lies
before the edit). -/
def updateLocationIfNecessary (location : SourceLocation) (lineIndex startColumn endColumn : Int)
    (newText : Option Str) : SourceLocation :=
  if location.line ≠ lineIndex then location
  else if !optTruthy location.column ∨ startColumn > location.column.getD 0 then location
  else
    let changeDelta : Int := ((newText.map (·.length)).getD 0 : Int) - (endColumn - startColumn)
    { location with column := some (location.column.getD 0 + changeDelta) }

/-- `updateTargetRangesAfterEditLine` for one comment's target ranges. -/
def updateTargetRangesAfterEditLine (lineIndex startColumn endColumn : Int)
    (newText : Option Str) (targetRanges : List SourceRange) : List SourceRange :=
  targetRanges.map fun targetRange =>
    { start := updateLocationIfNecessary targetRange.start lineIndex startColumn endColumn newText
      stop := updateLocationIfNecessary targetRange.stop lineIndex startColumn endColumn newText }

/-- `codeLines.splice(lineIndex, 1)`. -/
def spliceRemoveLine (codeLines : List Str) (lineIndex : Int) : List Str :=
  if 0 ≤ lineIndex then codeLines.eraseIdx lineIndex.toNat else codeLines

/-- `codeLines[lineIndex] = newLine`. -/
def setLineAt (codeLines : List Str) (lineIndex : Int) (newLine : Str) : List Str :=
  if 0 ≤ lineIndex then codeLines.set lineIndex.toNat newLine else codeLines

/-- The result of a `cleanCode` call: the mutated line array and the (possibly
target-rebased) annotation comments. -/
structure CleanResult where
  codeLines : List Str
  annotationComments : List CleanComment

/-- Application of one change of the (already reversed) change list. -/
def applyChange (updateTargetRanges : Bool) (acc : CleanResult) (change : SourceChange) :
    CleanResult :=
  match change with
  | .removeLine lineIndex =>
    { codeLines := spliceRemoveLine acc.codeLines lineIndex
      annotationComments :=
        if updateTargetRanges then
          acc.annotationComments.map fun c =>
            { c with targetRanges := updateTargetRangesAfterRemoveLine lineIndex c.targetRanges }
        else acc.annotationComments }
  | .editLine lineIndex startColumn endColumn newText =>
    let line := jsGetLine acc.codeLines lineIndex
    let newLine :=
      jsSlice line 0 startColumn ++ newText.getD [] ++ jsSlice line endColumn line.length
    { codeLines := setLineAt acc.codeLines lineIndex newLine
      annotationComments :=
        if updateTargetRanges then
          acc.annotationComments.map fun c =>
            { c with targetRanges :=
                (updateTargetRangesAfterEditLine lineIndex startColumn endColumn newText
                  c.targetRanges) }
        else acc.annotationComments }

/-- `cleanCode` of `src/core/clean.ts` (default hooks: built-in in-place
mutation). -/
def cleanCode (codeLines : List Str) (annotationComments : List CleanComment)
    (removeAnnotationContents : CleanComment → Bool := fun _ => false)
    (updateTargetRanges : Bool := true) : CleanResult :=
  let rangesToBeRemoved := firstPassRanges codeLines removeAnnotationContents annotationComments
  let rangesToBeRemoved := collapsePass codeLines annotationComments rangesToBeRemoved
  let mergedRangesToBeRemoved := mergeIntersectingOrAdjacentRanges rangesToBeRemoved
  let changes := mergedRangesToBeRemoved.flatMap (getRangeRemovalChanges codeLines)
  (changes.reverse).foldl (applyChange updateTargetRanges)
    { codeLines := codeLines, annotationComments := annotationComments }

/-! ## Supporting definitions for the claim theorems: concrete oracles,
concrete inputs, and the spec-side formalisations the claims compare against -/

/-- A regex-compiler oracle on whose patterns `new RegExp` throws (used where a
claim needs a query that fails to compile; none of the other concrete inputs
contain a regex query). -/
def rejectAll : RegexCompiler := fun _ => .error ("invalid regular expression").data

/-- All matches of the concrete pattern `a(b)c` in a string: occurrences of
`abc`, with the full-match span and the capture group span around the `b`
(the `d`-flag indices a JS engine reports for this pattern). -/
def abcGo : Str → Nat → Nat → List JsMatch
  | [], _, _ => []
  | c :: rest, pos, skip =>
    if skip > 0 then abcGo rest (pos + 1) (skip - 1)
    else if (("abc").data).isPrefixOf (c :: rest) then
      { index := pos, matched := ("abc").data
        indices := [some (pos, pos + 3), some (pos + 1, pos + 2)] } ::
      abcGo rest (pos + 1) 2
    else abcGo rest (pos + 1) 0

/-- The compiled regular expression `/a(b)c/` (as the platform oracle). -/
def abcRegex : JsRegex := fun s => abcGo s 0 0

/-- A regex-compiler oracle that knows the pattern `a(b)c`. -/
def abcCompile : RegexCompiler := fun p =>
  if p = ("a(b)c").data then .ok abcRegex else .error ("invalid regular expression").data

/-- C1 failing input: a tag with a regex query that does not compile, followed
by a valid tag on a later line. -/
def linesC1 : List Str := [("// [!note:/a(/] broken").data, ("b() // [!ok] fine").data]

/-- C2/C3 input: literal scenario 3 of the spec. -/
def linesC2 : List Str := [("// [!ignore-tags]").data, ("foo() // [!note] skip me").data]

/-- The parse state after the `ignore-tags` directive of `linesC2` was
processed (the line-index cutoff set to line 1). -/
def stateC3 : ParseState := { tagsIgnoredUntilLineIndex := 1 }

/-- The scanned `[!note]` tag of line 1 of `linesC2`. -/
def noteTagC3 : AnnotTag :=
  { name := ("note").data
    rawTag := ("[!note]").data
    range := { start := { line := 1, column := some 9 }, stop := { line := 1, column := some 16 } } }

/-- The outcome component of one orchestrator step. -/
def stepOutcome (codeLines : List Str) (st : ParseState) (tag : AnnotTag) : Option TagOutcome :=
  (parseStep codeLines st tag).toOption.map (·.2.1)

/-- Whether one orchestrator step invoked the parent-comment locator. -/
def stepInvokedLocator (codeLines : List Str) (st : ParseState) (tag : AnnotTag) : Option Bool :=
  (parseStep codeLines st tag).toOption.map (·.2.2)

/-- C4 counterexample input: an annotation targeting the next two lines, the
first of which is empty. -/
def linesC4cex : List Str := [("// [!mark:2]").data, [], ("a()").data]

/-- The comment `parseAnnotationComments` produces for `linesC4cex`. -/
def commentC4cex : AnnotComment :=
  { tag :=
      { name := ("mark").data
        relativeTargetRange := some 2
        rawTag := ("[!mark:2]").data
        range := { start := { line := 0, column := some 3 }, stop := { line := 0, column := some 12 } } }
    contents := []
    commentRange := { start := { line := 0 }, stop := { line := 0 } }
    annotationRange := some { start := { line := 0 }, stop := { line := 0 } }
    contentRanges := []
    targetRanges := [] }

/-- C4 witness input: literal scenario 2 of the spec. -/
def linesC4 : List Str :=
  [("x() // [!mark:3]").data, ("a()").data, ("b()").data, ("c()").data]

/-- The comment `parseAnnotationComments` produces for `linesC4`. -/
def commentC4 : AnnotComment :=
  { tag :=
      { name := ("mark").data
        relativeTargetRange := some 3
        rawTag := ("[!mark:3]").data
        range := { start := { line := 0, column := some 7 }, stop := { line := 0, column := some 16 } } }
    contents := []
    commentRange := { start := { line := 0, column := some 3 }, stop := { line := 0 } }
    annotationRange := some { start := { line := 0, column := some 3 }, stop := { line := 0 } }
    contentRanges := []
    targetRanges := [] }

/-- Whether a line is counted by the relative-range line walk of the code: at
least one sub-range of the line survives excluding the annotation comments
(an empty line not covered by any comment counts). -/
def validTargetLine (codeLines : List Str) (annotationComments : List AnnotComment)
    (lineIndex : Int) : Bool :=
  (FT.getNonAnnotationCommentLineContents lineIndex codeLines annotationComments).contentRanges.length ≠ 0

/-- The claim's counting criterion, as the spec words it: the line must have
"at least some non-annotation content", i.e. at least one character outside
every annotation comment's range. -/
def specC4_lineHasSomeContent (codeLines : List Str) (annotationComments : List AnnotComment)
    (lineIndex : Int) : Bool :=
  (FT.getNonAnnotationCommentLineContents lineIndex codeLines annotationComments).contentRanges.any
    fun r => !(jsSliceO (jsGetLine codeLines lineIndex) r.start.column r.stop.column).isEmpty

/-- The in-bounds line indices walked from `i` in direction `step`. -/
def dirIndices (len step : Int) : Nat → Int → List Int
  | 0, _ => []
  | fuel + 1, i => if 0 ≤ i ∧ i < len then i :: dirIndices len step fuel (i + step) else []

/-- The targets the C4 claim predicts for a downward walk of magnitude `k`
from `commentLine`: single-line ranges of the first `k` walked lines that have
at least some non-annotation content. -/
def specC4_predicted (codeLines : List Str) (annotationComments : List AnnotComment)
    (commentLine : Int) (k : Nat) : List SourceRange :=
  (((dirIndices codeLines.length 1 codeLines.length commentLine).filter
    (specC4_lineHasSomeContent codeLines annotationComments)).take k).map createSingleLineRange

/-- C5 failing input: a backward search query with matches on two earlier lines. -/
def linesC5 : List Str :=
  [("let a = 1;").data, ("let a = 2;").data, ("b() // [!mark:a:-2]").data]

/-- The comment the parser produces for the `[!mark:a:-2]` tag of `linesC5`. -/
def commentC5 : AnnotComment :=
  { tag :=
      { name := ("mark").data
        targetSearchQuery := some (.inl ("a").data)
        relativeTargetRange := some (-2)
        rawTag := ("[!mark:a:-2]").data
        range := { start := { line := 2, column := some 7 }, stop := { line := 2, column := some 19 } } }
    contents := []
    commentRange := { start := { line := 2, column := some 4 }, stop := { line := 2 } }
    annotationRange := some { start := { line := 2, column := some 4 }, stop := { line := 2 } }
    contentRanges := []
    targetRanges := [] }

/-- C6 input: literal scenario 4 of the spec. -/
def linesC6 : List Str := [("/* [!note:/a(b)c/] text */").data, ("xabcy").data]

/-- The C6 pipeline: parse, then resolve targets. -/
def pipelineC6 : Except Str (List AnnotComment) := do
  let annotationComments ← parseAnnotComments abcCompile linesC6
  FT.findAnnotationTargets linesC6 annotationComments

/-- C9 failing input: an annotation inside a multi-line comment. -/
def linesC9 : List Str := [("/* [!note] hi */").data]

/-- C10's per-pair frame relation: every field but `targetRanges` is unchanged. -/
def sameExceptTargets (c c' : CleanComment) : Prop :=
  c'.tag = c.tag ∧ c'.contents = c.contents ∧ c'.commentRange = c.commentRange ∧
  c'.commentInnerRange = c.commentInnerRange ∧ c'.annotationRange = c.annotationRange ∧
  c'.contentRanges = c.contentRanges

/-- The target-range rebasing a single planned change performs (the
`updateTargetRangesAfter...` handler the change dispatches to). -/
def changeTargetUpdate (change : SourceChange) (targetRanges : List SourceRange) :
    List SourceRange :=
  match change with
  | .removeLine lineIndex => updateTargetRangesAfterRemoveLine lineIndex targetRanges
  | .editLine lineIndex startColumn endColumn newText =>
    updateTargetRangesAfterEditLine lineIndex startColumn endColumn newText targetRanges

/-- C7's line shape: code `a`, then two chained single-line annotation
comments `// [!x] // [!y]` using the same opener. -/
def chainLine (a x y : Str) : Str :=
  a ++ (" // [!").data ++ x ++ ("] // [!").data ++ y ++ ("]").data

/-- The scanned tag `[!x]` of `chainLine a x y` (columns `|a|+4` to
`|a|+|x|+7`). -/
def chainTagX (a x : Str) : AnnotTag :=
  { name := x
    rawTag := ("[!").data ++ x ++ ("]").data
    range := { start := { line := 0, column := some ((a.length + 4 : Nat) : Int) }
               stop := { line := 0, column := some ((a.length + x.length + 7 : Nat) : Int) } } }

/-- The scanned tag `[!y]` of `chainLine a x y` (columns `|a|+|x|+11` to the
end of the line). -/
def chainTagY (a x y : Str) : AnnotTag :=
  { name := y
    rawTag := ("[!").data ++ y ++ ("]").data
    range := { start := { line := 0, column := some ((a.length + x.length + 11 : Nat) : Int) }
               stop := { line := 0
                         column := some ((a.length + x.length + y.length + 14 : Nat) : Int) } } }

/-- Whether a source range covers the character cell `(lineIndex, col)` (the
range boundaries use the cleaner's column defaults: a missing start column is
`0`, a missing end column is the line length). -/
def rangeCoversPos (codeLines : List Str) (r : SourceRange) (lineIndex col : Int) : Bool :=
  let lineLength : Int := (jsGetLine codeLines lineIndex).length
  (decide (r.start.line < lineIndex) ||
    (r.start.line == lineIndex && decide (r.start.column.getD 0 ≤ col))) &&
  (decide (lineIndex < r.stop.line) ||
    (r.stop.line == lineIndex && decide (col < r.stop.column.getD lineLength)))

/-- The C8 claim's premise, as the spec words it: after subtracting all
planned removal ranges from the comment's inner range, nothing but whitespace
remains — every character cell inside `inner` is whitespace or covered by
some removal range. -/
def specC8_wsOnlyRemainder (codeLines : List Str) (inner : SourceRange)
    (removals : List SourceRange) : Bool :=
  (intRangeList inner.start.line (inner.stop.line + 1)).all fun lineIndex =>
    (List.range (jsGetLine codeLines lineIndex).length).all fun col =>
      !(rangeCoversPos codeLines inner lineIndex (col : Int)) ||
      isWs ((jsGetLine codeLines lineIndex).getD col ' ') ||
      removals.any fun r => rangeCoversPos codeLines r lineIndex (col : Int)

/-- C8 failing input: two multi-line annotation comments on one line, each
holding only its annotation. -/
def linesC8 : List Str := [("/* [!a] */ x() /* [!b] */").data]

/-- The first comment of `linesC8` (wrapper columns 0–10, inner columns 2–8,
annotation `[!a]` at columns 3–7). -/
def commentC8a : CleanComment :=
  { tag := { name := ("a").data, rawTag := ("[!a]").data
             range := { start := { line := 0, column := some 3 }
                        stop := { line := 0, column := some 7 } } }
    contents := []
    commentRange := { start := { line := 0, column := some 0 }
                      stop := { line := 0, column := some 10 } }
    commentInnerRange := { start := { line := 0, column := some 2 }
                           stop := { line := 0, column := some 8 } }
    annotationRange := { start := { line := 0, column := some 3 }
                         stop := { line := 0, column := some 7 } }
    contentRanges := []
    targetRanges := [] }

/-- The second comment of `linesC8` (wrapper columns 15–end of line, inner
columns 17–23, annotation `[!b]` at columns 18–22). -/
def commentC8b : CleanComment :=
  { tag := { name := ("b").data, rawTag := ("[!b]").data
             range := { start := { line := 0, column := some 18 }
                        stop := { line := 0, column := some 22 } } }
    contents := []
    commentRange := { start := { line := 0, column := some 15 }, stop := { line := 0 } }
    commentInnerRange := { start := { line := 0, column := some 17 }
                           stop := { line := 0, column := some 23 } }
    annotationRange := { start := { line := 0, column := some 18 }
                         stop := { line := 0, column := some 22 } }
    contentRanges := []
    targetRanges := [] }

/-- The two annotation comments of `linesC8`. -/
def commentsC8 : List CleanComment := [commentC8a, commentC8b]

/-! # Theorems for the claims -/

/-- Helper for C3: any tag a `parseAnnotationComments` step suppresses (by the
line cutoff or a name counter) had the parent-comment locator invoked on it. -/
theorem parseStepSuppressedInvoked (codeLines : List Str) (st : ParseState) (tag : AnnotTag)
    (st' : ParseState) (o : TagOutcome) (b : Bool)
    (hres : parseStep codeLines st tag = .ok (st', o, b))
    (ho : o = .suppressedByLine ∨ o = .suppressedByName) : b = true := by
  unfold parseStep at hres
  rcases ho with ho | ho <;> subst ho <;>
    (repeat' split at hres) <;>
    (try simp only [ite_eq_iff] at hres) <;> simp_all

/-- C1: the claim says the tag scanner never throws and records a failed regex
query as a diagnostic while scanning continues. The scanner revision of
`src/parsers/annotation-tags.ts` instead propagates the exception of
`createGlobalRegExp`: on `linesC1` the whole scan evaluates to a thrown error
(no tag list, no diagnostics list, and the valid `[!ok]` tag of the next line
is lost), which is what the claim, the README and the scanner tests rule out. -/
theorem claim_C1 :
    parseAnnotationTags rejectAll linesC1 =
      .error (("Failed to parse `a(` as regular expression: invalid regular expression").data) := by
  rfl

/-- C2: on literal scenario 3 (`linesC2`) the claim predicts exactly one
resulting comment, the validated `ignore-tags` directive itself. The
`parseAnnotationComments` revision embedded in `src/core/types.ts` applies the
directive and `return`s without pushing it, and then suppresses the `note`
tag, so the parse result is empty. -/
theorem claim_C2 : parseAnnotComments rejectAll linesC2 = .ok [] := by rfl

/-- C3 counterexample: on `linesC2` the `note` tag is suppressed by the
directive's line cutoff (outcome `suppressedByLine`), yet the trace records
that the parent-comment locator was invoked on it (`true`), refuting the claim
that a suppressed tag never gets a parent-comment lookup. -/
theorem claim_C3_counterexample :
    (parseAnnotationCommentsTrace rejectAll linesC2).map
      (fun r => r.2.map (fun t => (t.2.1, t.2.2))) =
    .ok [(.directiveApplied, true), (.suppressedByLine, true)] := by rfl

/-- C3 amended: suppression is evaluated only after the parent-comment locator
ran on the tag — every step of `parseAnnotationComments` that suppresses a tag
(by the line cutoff or a name counter) invoked the locator on that tag. -/
theorem claim_C3 (codeLines : List Str) (st : ParseState) (tag : AnnotTag)
    (h : stepOutcome codeLines st tag = some .suppressedByLine ∨
         stepOutcome codeLines st tag = some .suppressedByName) :
    stepInvokedLocator codeLines st tag = some true := by
  cases hres : parseStep codeLines st tag with
  | error e =>
    have hso : stepOutcome codeLines st tag = none := by
      unfold stepOutcome
      rw [hres]
      rfl
    rw [hso] at h
    rcases h with h | h <;> exact Option.noConfusion h
  | ok v =>
    obtain ⟨st', o, b⟩ := v
    have hso : stepOutcome codeLines st tag = some o := by
      unfold stepOutcome
      rw [hres]
      rfl
    have hsi : stepInvokedLocator codeLines st tag = some b := by
      unfold stepInvokedLocator
      rw [hres]
      rfl
    rw [hso] at h
    have ho : o = TagOutcome.suppressedByLine ∨ o = TagOutcome.suppressedByName := by
      rcases h with h | h
      · exact Or.inl (Option.some.inj h)
      · exact Or.inr (Option.some.inj h)
    have hb := parseStepSuppressedInvoked codeLines st tag st' o b hres ho
    rw [hsi, hb]

/-- C3 witness: the suppressed `note` tag of `linesC2`, at the state the
directive left behind, did get a locator invocation. -/
theorem claim_C3_witness : stepInvokedLocator linesC2 stateC3 noteTagC3 = some true :=
  claim_C3 linesC2 stateC3 noteTagC3 (Or.inl (by rfl))

/-- C5: the claim says that after a backward search the final `targetRanges`
are in ascending source order. On `linesC5` (query `a`, relative range `-2`,
matches on lines 0 and 1) both resolver revisions return the ranges in
descending order `[line 1, line 0]`: the revision of
`src/core/find-targets.ts` never reorders, and the sort of
`src/unnamed/part_008` uses the comparator `compareRanges(b, a, 'start')`,
which under the snapshot's `compareRanges` sorts descending. -/
theorem claim_C5 :
    (V2.findAnnotationTargets linesC5 [commentC5]).map (fun c => c.targetRanges) =
      [[{ start := { line := 1, column := some 4 }, stop := { line := 1, column := some 5 } },
        { start := { line := 0, column := some 4 }, stop := { line := 0, column := some 5 } }]] ∧
    (FT.findAnnotationTargets linesC5 [commentC5]).map (List.map (fun c => c.targetRanges)) =
      .ok [[{ start := { line := 1, column := some 4 }, stop := { line := 1, column := some 5 } },
            { start := { line := 0, column := some 4 }, stop := { line := 0, column := some 5 } }]] :=
  ⟨by rfl, by rfl⟩

/-- Helper for C4: the relative-range line walk of `findTargetsForComment`
returns exactly the first `rem` in-bounds walked lines that the code counts
(those whose `getNonAnnotationCommentLineContents` has a nonzero number of
content ranges), as single-line ranges. -/
theorem lineWalkEq (codeLines : List Str) (annotationComments : List AnnotComment) (step : Int) :
    ∀ (fuel : Nat) (i : Int) (rem : Nat),
      FT.lineWalk codeLines annotationComments step fuel i rem =
      (((dirIndices codeLines.length step fuel i).filter
        (validTargetLine codeLines annotationComments)).take rem).map createSingleLineRange := by
  intro fuel
  induction fuel with
  | zero => intro i rem; simp [FT.lineWalk, dirIndices]
  | succ n ih =>
    intro i rem
    rw [FT.lineWalk, dirIndices]
    by_cases hin : 0 ≤ i ∧ i < (codeLines.length : Int)
    · rw [if_pos hin]
      cases rem with
      | zero =>
        rw [if_neg (by omega)]
        simp
      | succ r =>
        rw [if_pos ⟨hin.1, hin.2, by omega⟩]
        by_cases hp : (FT.getNonAnnotationCommentLineContents i codeLines
            annotationComments).contentRanges.length ≠ 0
        · rw [if_pos hp, List.filter_cons_of_pos, List.take_succ_cons, List.map_cons, ih]
          · norm_num
          · exact decide_eq_true hp
        · rw [if_neg hp, List.filter_cons_of_neg, ih]
          simp only [validTargetLine]
          simp [hp]
    · rw [if_neg fun hc => hin ⟨hc.1, hc.2.1⟩, if_neg hin]
      simp

/-- C4 (amended): for a comment with an explicit relative target range `k` and
no search query (and a non-reserved tag name), the resolver walks line by line
in the sign-of-`k` direction starting at the comment's line and appends, as
single-line target ranges, exactly the first `|k|` walked in-bounds lines that
the code counts — namely the lines with at least one sub-range left after
excluding the annotation comments. Unlike the claim's criterion ("at least
some non-annotation content"), an empty line not covered by any annotation
comment counts too, because `getNonAnnotationCommentLineContents` emits a
whole-line content range for any line no comment intersects, even an empty
one. -/
theorem claim_C4 (codeLines : List Str) (annotationComments : List AnnotComment)
    (comment : AnnotComment) (k : Int)
    (hq : comment.tag.targetSearchQuery = none)
    (hk : comment.tag.relativeTargetRange = some k)
    (hname : comment.tag.name ≠ ("ignore-tags").data) :
    FT.findTargetsForComment codeLines annotationComments comment =
      .ok ((((dirIndices codeLines.length (if k > 0 then 1 else -1) codeLines.length
        comment.commentRange.start.line).filter
          (validTargetLine codeLines annotationComments)).take k.natAbs).map
            createSingleLineRange) := by
  unfold FT.findTargetsForComment
  rw [if_neg hname]
  simp [hq, hk, FT.queryTruthy, lineWalkEq codeLines annotationComments]

/-- C4 counterexample: on `linesC4cex` the parser yields the single comment
`commentC4cex` with relative range `2`; the resolver's walk counts the empty
line 1 (it has no non-annotation content, but it does have a surviving
content range) and returns target ranges for lines 1 and 2, while the claim's
counting criterion ("at least some non-annotation content") predicts only
line 2. -/
theorem claim_C4_counterexample :
    parseAnnotComments rejectAll linesC4cex = .ok [commentC4cex] ∧
    FT.findTargetsForComment linesC4cex [commentC4cex] commentC4cex =
      .ok [createSingleLineRange 1, createSingleLineRange 2] ∧
    specC4_predicted linesC4cex [commentC4cex] 0 2 = [createSingleLineRange 2] :=
  ⟨by rfl, by rfl, by rfl⟩

/-- C4 witness: on literal scenario 2 (`linesC4`, relative range `3`) the
amended theorem yields target ranges covering lines 0, 1 and 2. -/
theorem claim_C4_witness :
    FT.findTargetsForComment linesC4 [commentC4] commentC4 =
      .ok [createSingleLineRange 0, createSingleLineRange 1, createSingleLineRange 2] :=
  (claim_C4 linesC4 [commentC4] commentC4 3 rfl rfl (by decide)).trans (by rfl)

/-- C6: when a regex query's matches carry more than one group index (i.e.
the pattern has capture groups), `findRegExpMatchColumnRanges` contributes,
for every match, exactly the capture-group spans (the tail of the filtered
`d`-flag indices) and never the full-match span; and on literal scenario 4
(`linesC6`, query `/a(b)c/`) the full pipeline yields a single target range
of columns 2–3 on line 1, which is exactly the substring `b` of `xabcy`. -/
theorem claim_C6 :
    (∀ (content : Str) (regExp : JsRegex),
      (∀ m ∈ regExp content, 1 < (m.indices.filterMap id).length) →
      findRegExpMatchColumnRanges content regExp =
        (regExp content).flatMap (fun m => (m.indices.filterMap id).tail)) ∧
    pipelineC6.map (List.map (fun c => c.targetRanges)) =
      .ok [[{ start := { line := 1, column := some 2 }, stop := { line := 1, column := some 3 } }]] ∧
    jsSlice (linesC6.getD 1 []) 2 3 = ("b").data := by
  refine ⟨?_, by rfl, by rfl⟩
  intro content regExp h
  unfold findRegExpMatchColumnRanges
  generalize regExp content = l at h ⊢
  induction l with
  | nil => rfl
  | cons m ms ih =>
    have hm := h m (List.mem_cons_self m ms)
    have hms := fun x hx => h x (List.mem_cons_of_mem m hx)
    simp only [List.flatMap_cons]
    rw [ih hms]
    congr 1
    have hne : m.indices.length ≠ 0 := by
      have hle := List.length_filterMap_le id m.indices
      omega
    have h0 : ¬((m.indices.filterMap id).length = 0) := by omega
    have h1 : (m.indices.filterMap id).length > 1 := hm
    simp [getGroupIndicesFromRegExpMatch, hne, h0, h1]

/-- C6 witness: the regex `/a(b)c/` on `xabcy` (whose single match has a
full-match index pair and one group index pair) yields exactly the group span
(2, 3). -/
theorem claim_C6_witness :
    findRegExpMatchColumnRanges (("xabcy").data) abcRegex = [(2, 3)] :=
  (claim_C6.1 (("xabcy").data) abcRegex (by decide)).trans (by rfl)

/-- Helper for C10: with `updateTargetRanges = false`, the change-application
fold never touches the annotation comments. -/
theorem foldlApplyFalse : ∀ (changes : List SourceChange) (acc : CleanResult),
    (changes.foldl (applyChange false) acc).annotationComments = acc.annotationComments := by
  intro changes
  induction changes with
  | nil => intro acc; rfl
  | cons ch rest ih =>
    intro acc
    rw [List.foldl_cons, ih]
    cases ch <;> rfl

/-- Helper for C10: with `updateTargetRanges = true`, the change-application
fold maps every comment to itself with only `targetRanges` rewritten (by the
fold of the per-change rebasing functions). -/
theorem foldlApplyTrue : ∀ (changes : List SourceChange) (acc : CleanResult),
    (changes.foldl (applyChange true) acc).annotationComments =
      acc.annotationComments.map fun c =>
        { c with targetRanges :=
            changes.foldl (fun t ch => changeTargetUpdate ch t) c.targetRanges } := by
  intro changes
  induction changes with
  | nil => intro acc; simp
  | cons ch rest ih =>
    intro acc
    rw [List.foldl_cons, ih]
    have hstep : (applyChange true acc ch).annotationComments =
        acc.annotationComments.map fun c =>
          { c with targetRanges := changeTargetUpdate ch c.targetRanges } := by
      cases ch <;> rfl
    rw [hstep, List.map_map]
    rfl

/-- Helper for C7: the comment-opener scan finds no match inside a region of
non-whitespace characters (away from position `0`, the pattern needs a
leading whitespace run). -/
theorem scanNonWs : ∀ (u rest : Str) (pos : Nat), (∀ c ∈ u, isWs c = false) → pos ≠ 0 →
    slScanAux (u ++ rest) pos 0 = slScanAux rest (pos + u.length) 0 := by
  intro u
  induction u with
  | nil => intro rest pos _ _; simp
  | cons c u ih =>
    intro rest pos hu hpos
    have hc : isWs c = false := hu c (List.mem_cons_self c u)
    have hmatch : slMatchAtPos pos (c :: (u ++ rest)) = none := by
      unfold slMatchAtPos slTryWsBranch
      rw [if_neg hpos]
      simp [wsRun, List.takeWhile_cons, hc]
    rw [List.cons_append, slScanAux]
    simp only [gt_iff_lt, Nat.lt_irrefl, if_false, hmatch]
    rw [ih rest (pos + 1) (fun d hd => hu d (List.mem_cons_of_mem c hd)) (by omega)]
    congr 1
    simp [List.length_cons]
    omega

/-- Helper for C7: the same skip over a leading non-whitespace region when the
scan starts at position `0` and the pattern does not match there. -/
theorem scanNonWs0 (u rest : Str) (hu : ∀ c ∈ u, isWs c = false) (hne : u ≠ [])
    (hm0 : slMatchAtPos 0 (u ++ rest) = none) :
    slScanAux (u ++ rest) 0 0 = slScanAux rest u.length 0 := by
  cases u with
  | nil => exact absurd rfl hne
  | cons c u' =>
    rw [List.cons_append] at hm0 ⊢
    rw [slScanAux]
    simp only [gt_iff_lt, Nat.lt_irrefl, if_false, hm0]
    rw [scanNonWs u' rest 1 (fun d hd => hu d (List.mem_cons_of_mem c hd)) (by omega)]
    congr 1
    simp [List.length_cons]
    omega

/-- Helper for C7: scanning ` // [!` followed by a non-whitespace tail emits
one `//` opener match of four columns and resumes after the tail. -/
theorem scanSep (t rest : Str) (pos : Nat) (hpos : pos ≠ 0) (ht : ∀ c ∈ t, isWs c = false) :
    slScanAux (' ' :: '/' :: '/' :: ' ' :: '[' :: '!' :: (t ++ rest)) pos 0 =
      { startColumn := pos, endColumn := pos + 4, syn := ("//").data } ::
        slScanAux rest (pos + (t.length + 6)) 0 := by
  have hmatch : slMatchAtPos pos (' ' :: '/' :: '/' :: ' ' :: '[' :: '!' :: (t ++ rest)) =
      some { startColumn := pos, endColumn := pos + 4, syn := ("//").data } := by
    unfold slMatchAtPos slTryWsBranch
    rw [if_neg hpos]
    simp +decide [wsRun, List.takeWhile_cons, isWs, matchOpener, List.isPrefixOf]
  rw [slScanAux]
  simp only [gt_iff_lt, Nat.lt_irrefl, if_false, hmatch]
  have hskip : pos + 4 - pos - 1 = 3 := by omega
  rw [hskip]
  rw [slScanAux, if_pos (by omega : 3 > 0)]
  rw [slScanAux, if_pos (by omega : 3 - 1 > 0)]
  rw [slScanAux, if_pos (by omega : 3 - 1 - 1 > 0)]
  have h3 : 3 - 1 - 1 - 1 = 0 := by omega
  rw [h3]
  have hu : ∀ c ∈ '[' :: '!' :: t, isWs c = false := by
    intro d hd
    rcases hd with _ | ⟨_, hd⟩
    · decide
    rcases hd with _ | ⟨_, hd⟩
    · decide
    · exact ht d hd
  have := scanNonWs ('[' :: '!' :: t) rest (pos + 1 + 1 + 1 + 1) hu (by omega)
  rw [List.cons_append, List.cons_append] at this
  rw [this]
  simp only [List.length_cons]
  congr 2
  omega

/-- Helper for C7: on the chained line the opener scan finds exactly the two
`//` matches, at columns `|a|` and `|a|+|x|+7` (each spanning the opener and
its surrounding single spaces). -/
theorem chainScan (a x y : Str) (ha : a ≠ []) (hm0 : slMatchAtPos 0 (chainLine a x y) = none)
    (hanw : ∀ c ∈ a, isWs c = false)
    (hx : ∀ c ∈ x, isWs c = false) (hy : ∀ c ∈ y, isWs c = false) :
    slScan (chainLine a x y) =
      [ { startColumn := a.length, endColumn := a.length + 4, syn := ("//").data },
        { startColumn := a.length + x.length + 7, endColumn := a.length + x.length + 11
          syn := ("//").data } ] := by
  have hS : chainLine a x y =
      a ++ (' ' :: '/' :: '/' :: ' ' :: '[' :: '!' ::
        ((x ++ [']']) ++ (' ' :: '/' :: '/' :: ' ' :: '[' :: '!' ::
          ((y ++ [']']) ++ ([] : Str))))) := by
    simp [chainLine, List.append_assoc]
  rw [hS] at hm0 ⊢
  unfold slScan
  rw [scanNonWs0 _ _ hanw ha hm0]
  have hx' : ∀ c ∈ x ++ [']'], isWs c = false := by
    intro d hd
    rcases List.mem_append.mp hd with h | h
    · exact hx d h
    · simp at h; subst h; decide
  have hy' : ∀ c ∈ y ++ [']'], isWs c = false := by
    intro d hd
    rcases List.mem_append.mp hd with h | h
    · exact hy d h
    · simp at h; subst h; decide
  rw [scanSep _ _ _ (fun h => ha (List.length_eq_zero.mp h)) hx']
  rw [scanSep _ _ _ (by omega) hy']
  rw [show slScanAux ([] : Str) (a.length + ((x ++ [']']).length + 6) +
    ((y ++ [']']).length + 6)) 0 = [] from rfl]
  simp [List.length_append, SlMatch.mk.injEq]
  omega

/-- Helper: `slice(0, k)` is `take k` for an in-range nonnegative `k`. -/
theorem jsSlice_take (s : Str) (k : Nat) (hk : k ≤ s.length) :
    jsSlice s 0 (k : Int) = s.take k := by
  simp only [jsSlice]
  rw [if_neg (by omega : ¬ ((0 : Int) < 0)), if_neg (by omega : ¬ ((k : Int) < 0)),
    min_eq_left (by exact_mod_cast Nat.zero_le _ : (0 : Int) ≤ (s.length : Int)),
    min_eq_left (by exact_mod_cast hk : (k : Int) ≤ (s.length : Int))]
  simp

/-- Helper: `slice(k, length)` is `drop k` for an in-range nonnegative `k`. -/
theorem jsSlice_drop (s : Str) (k : Nat) (hk : k ≤ s.length) :
    jsSlice s (k : Int) (s.length : Int) = s.drop k := by
  simp only [jsSlice]
  rw [if_neg (by omega : ¬ ((k : Int) < 0)), if_neg (by omega : ¬ ((s.length : Int) < 0)),
    min_eq_left (by exact_mod_cast hk : (k : Int) ≤ (s.length : Int)),
    min_self]
  simp

/-- Helper: dropping leading whitespace from an all-non-whitespace string is
the identity. -/
theorem dropWhile_nws (l : Str) (h : ∀ c ∈ l, isWs c = false) : l.dropWhile isWs = l := by
  cases l with
  | nil => rfl
  | cons c t => simp [List.dropWhile_cons, h c (List.mem_cons_self c t)]

/-- Helper: trimming a nonempty all-non-whitespace string leaves it nonempty. -/
theorem jsTrim_ne_nil (l : Str) (hne : l ≠ []) (h : ∀ c ∈ l, isWs c = false) :
    jsTrim l ≠ [] := by
  cases l with
  | nil => exact absurd rfl hne
  | cons c t =>
    unfold jsTrim
    rw [dropWhile_nws _ h]
    intro hcon
    rw [List.reverse_eq_nil_iff, List.dropWhile_eq_nil_iff] at hcon
    have := hcon c (by simp)
    rw [h c (List.mem_cons_self c t)] at this
    exact Bool.noConfusion this

/-- Helper: a string with a non-whitespace head character trims to a nonempty
string. -/
theorem jsTrim_head_ne_nil (c : Char) (s : Str) (hc : isWs c = false) : jsTrim (c :: s) ≠ [] := by
  have h1 : (c :: s).dropWhile isWs = c :: s := by simp [List.dropWhile_cons, hc]
  unfold jsTrim
  rw [h1]
  intro hcon
  rw [List.reverse_eq_nil_iff, List.dropWhile_eq_nil_iff] at hcon
  have := hcon c (by simp)
  rw [hc] at this
  exact Bool.noConfusion this

/-- Helper for C7: the single-line comment located for tag `x` of the chained
line ends exactly at column `|a|+|x|+7`. -/
theorem chainCommentStopX (a x y : Str) (ha : a ≠ [])
    (hm0 : slMatchAtPos 0 (chainLine a x y) = none)
    (hanw : ∀ c ∈ a, isWs c = false)
    (hx : ∀ c ∈ x, isWs c = false) (hy : ∀ c ∈ y, isWs c = false) :
    (parseSingleLineParentComment [chainLine a x y] (chainTagX a x)).map
        (fun c => c.commentRange.stop) =
      some { line := 0, column := some ((a.length + x.length + 7 : Nat) : Int) } := by
  have hscan := chainScan a x y ha hm0 hanw hx hy
  have hgl : jsGetLine [chainLine a x y] 0 = chainLine a x y := rfl
  have happ : chainLine a x y =
      a ++ (' ' :: '/' :: '/' :: ' ' :: '[' :: '!' ::
        (x ++ ']' :: ' ' :: '/' :: '/' :: ' ' :: '[' :: '!' :: (y ++ [']']))) := by
    simp [chainLine, List.append_assoc]
  have hlen : (chainLine a x y).length = a.length + x.length + y.length + 14 := by
    rw [happ]; simp [List.length_append]; omega
  have hsl : jsSlice (chainLine a x y) 0 ((a.length : Nat) : Int) = a := by
    rw [jsSlice_take _ _ (by omega), happ, List.take_left]
  have hsplit3 : chainLine a x y =
      (a ++ ' ' :: '/' :: '/' :: ' ' :: '[' :: '!' :: (x ++ [']', ' ', '/', '/', ' '])) ++
        ('[' :: '!' :: (y ++ [']'])) := by
    simp [chainLine, List.append_assoc]
  have hdrop : jsSlice (chainLine a x y) (((a.length + x.length + 11 : Nat)) : Int)
      (((chainLine a x y).length : Nat) : Int) = '[' :: '!' :: (y ++ [']']) := by
    rw [jsSlice_drop _ _ (by omega), hsplit3, List.drop_left' (by simp [List.length_append]; omega)]
  unfold parseSingleLineParentComment
  simp only [hgl, hscan, chainTagX, Option.getD_some]
  rw [List.find?_cons_of_pos _ (by simp)]
  simp only []
  have hdrop' : jsSlice (chainLine a x y)
      ((List.length a : Int) + (List.length x : Int) + 11) (((chainLine a x y).length : Int)) =
      '[' :: '!' :: (y ++ [']']) := by
    have hcast : ((List.length a : Int) + (List.length x : Int) + 11) =
        ((List.length a + List.length x + 11 : Nat) : Int) := by push_cast; ring
    rw [hcast, hdrop]
  rw [List.find?_cons_of_neg _ (by simp; intro h; exfalso; omega)]
  rw [List.find?_cons_of_pos _ (by simp [hdrop'])]
  rw [hsl]
  have htr : jsTrim a ≠ [] := jsTrim_ne_nil a ha hanw
  rw [if_pos htr]
  rw [if_neg (fun h => htr h.1)]
  simp [createRange]

/-- Helper for C7: the single-line comment located for tag `y` of the chained
line starts exactly at column `|a|+|x|+7`. -/
theorem chainCommentStartY (a x y : Str) (ha : a ≠ [])
    (hm0 : slMatchAtPos 0 (chainLine a x y) = none)
    (hanw : ∀ c ∈ a, isWs c = false)
    (hx : ∀ c ∈ x, isWs c = false) (hy : ∀ c ∈ y, isWs c = false) :
    (parseSingleLineParentComment [chainLine a x y] (chainTagY a x y)).map
        (fun c => c.commentRange.start) =
      some { line := 0, column := some ((a.length + x.length + 7 : Nat) : Int) } := by
  have hscan := chainScan a x y ha hm0 hanw hx hy
  have hgl : jsGetLine [chainLine a x y] 0 = chainLine a x y := rfl
  have hsplit2 : chainLine a x y =
      (a ++ ' ' :: '/' :: '/' :: ' ' :: '[' :: '!' :: (x ++ [']'])) ++
        (' ' :: '/' :: '/' :: ' ' :: '[' :: '!' :: (y ++ [']'])) := by
    simp [chainLine, List.append_assoc]
  have hlen : (chainLine a x y).length = a.length + x.length + y.length + 14 := by
    rw [hsplit2]; simp [List.length_append]; omega
  have htake2 : jsSlice (chainLine a x y) 0 ((a.length + x.length + 7 : Nat) : Int) =
      a ++ ' ' :: '/' :: '/' :: ' ' :: '[' :: '!' :: (x ++ [']']) := by
    rw [jsSlice_take _ _ (by omega), hsplit2,
      List.take_left' (by simp [List.length_append]; omega)]
  have htrim2 : jsTrim (a ++ ' ' :: '/' :: '/' :: ' ' :: '[' :: '!' :: (x ++ [']'])) ≠ [] := by
    cases a with
    | nil => exact absurd rfl ha
    | cons c a' =>
      rw [List.cons_append]
      exact jsTrim_head_ne_nil c _ (hanw c (List.mem_cons_self _ _))
  unfold parseSingleLineParentComment
  simp only [hgl, hscan, chainTagY, Option.getD_some]
  rw [List.find?_cons_of_neg _ (by simp; omega)]
  rw [List.find?_cons_of_pos _ (by simp)]
  simp only []
  rw [List.find?_cons_of_neg _ (by simp; intro h; exfalso; omega)]
  rw [List.find?_cons_of_neg _ (by simp; intro h; exfalso; omega)]
  rw [List.find?_nil]
  rw [htake2]
  rw [if_pos htrim2]
  rw [if_neg (fun h => htrim2 h.1)]
  simp [createRange]

/-- C7: for every line of the shape `a // [!x] // [!y]` — nonempty
non-whitespace code `a` that does not let a comment opener match at position
`0`, tag names `x` and `y` without whitespace — the single-line locator ends
the comment of tag `x` exactly at column `|a|+|x|+7`, which is exactly the
column where the comment of tag `y` begins (the position of the whitespace
before the second opener): the two comment ranges share no characters and no
character between them is skipped. -/
theorem claim_C7 (a x y : Str) (ha : a ≠ [])
    (hm0 : slMatchAtPos 0 (chainLine a x y) = none)
    (hanw : ∀ c ∈ a, isWs c = false)
    (hx : ∀ c ∈ x, isWs c = false) (hy : ∀ c ∈ y, isWs c = false) :
    (parseSingleLineParentComment [chainLine a x y] (chainTagX a x)).map
        (fun c => c.commentRange.stop) =
      some { line := 0, column := some ((a.length + x.length + 7 : Nat) : Int) } ∧
    (parseSingleLineParentComment [chainLine a x y] (chainTagY a x y)).map
        (fun c => c.commentRange.start) =
      some { line := 0, column := some ((a.length + x.length + 7 : Nat) : Int) } :=
  ⟨chainCommentStopX a x y ha hm0 hanw hx hy, chainCommentStartY a x y ha hm0 hanw hx hy⟩

/-- C7 witness: on the line `code() // [!x] // [!y]` the comment of `x` ends
and the comment of `y` begins at column `14`. -/
theorem claim_C7_witness :
    (parseSingleLineParentComment [chainLine (("code()").data) (("x").data) (("y").data)]
        (chainTagX (("code()").data) (("x").data))).map (fun c => c.commentRange.stop) =
      some { line := 0, column := some 14 } ∧
    (parseSingleLineParentComment [chainLine (("code()").data) (("x").data) (("y").data)]
        (chainTagY (("code()").data) (("x").data) (("y").data))).map
          (fun c => c.commentRange.start) =
      some { line := 0, column := some 14 } := by
  have h := claim_C7 (("code()").data) (("x").data) (("y").data) (by decide) (by rfl)
    (by decide) (by decide) (by decide)
  exact ⟨h.1.trans (by rfl), h.2.trans (by rfl)⟩

/-- C8: the claim says every parent comment whose inner range holds nothing
but whitespace after subtracting all planned per-comment removal ranges gets
its entire outer range scheduled for removal, so no residual empty comment
wrapper remains. On `linesC8` (two annotation-only comments sharing a line)
both comments satisfy the claim's premise, yet the second pass schedules
neither wrapper (`collapsePass` returns the first-pass ranges unchanged) and
the cleaned code keeps two residual empty wrappers: the exclusion branches of
`excludeRangesFromOuterRange` fire for exclusions lying entirely left or
right of a range on the same line, corrupting the remainder the whitespace
test inspects. -/
theorem claim_C8 :
    specC8_wsOnlyRemainder linesC8 commentC8a.commentInnerRange
      (firstPassRanges linesC8 (fun _ => false) commentsC8) = true ∧
    specC8_wsOnlyRemainder linesC8 commentC8b.commentInnerRange
      (firstPassRanges linesC8 (fun _ => false) commentsC8) = true ∧
    collapsePass linesC8 commentsC8 (firstPassRanges linesC8 (fun _ => false) commentsC8) =
      firstPassRanges linesC8 (fun _ => false) commentsC8 ∧
    (cleanCode linesC8 commentsC8).codeLines = [("/*  */ x() /*  */").data] :=
  ⟨by rfl, by rfl, by rfl, by rfl⟩

/-- C10: for every input, `cleanCode` with `updateTargetRanges = false`
returns the annotation comments completely unchanged (only the code lines are
mutated); and with `updateTargetRanges = true` (the default) every comment is
returned with its `tag`, `contents`, `commentRange`, `commentInnerRange`,
`annotationRange` and `contentRanges` unchanged — `targetRanges` is the only
field `cleanCode` ever mutates. -/
theorem claim_C10 (codeLines : List Str) (annotationComments : List CleanComment)
    (removeAnnotationContents : CleanComment → Bool) :
    (cleanCode codeLines annotationComments removeAnnotationContents false).annotationComments =
      annotationComments ∧
    List.Forall₂ sameExceptTargets annotationComments
      (cleanCode codeLines annotationComments removeAnnotationContents true).annotationComments := by
  constructor
  · exact foldlApplyFalse _ _
  · rw [show (cleanCode codeLines annotationComments removeAnnotationContents
        true).annotationComments = _ from foldlApplyTrue _ _]
    rw [List.forall₂_map_right_iff]
    exact List.forall₂_same.mpr fun x hx => ⟨rfl, rfl, rfl, rfl, rfl, rfl⟩

/-- C9: the claim's invariant needs every parsed comment to carry an
`annotationRange` contained in its `commentRange`. On `linesC9` the parser
returns one comment produced by the multi-line strategy, whose
`annotationRange` is absent (`undefined`), contradicting the invariant (and
the `AnnotationComment` type and its tests). -/
theorem claim_C9 :
    (parseAnnotComments rejectAll linesC9).map (List.map (fun c => c.annotationRange)) =
      .ok [none] := by rfl

end AC
